import Mathlib

/-!
Shallow embedding of the mirv guest-memory subsystem (package `mem`,
block-based bus revision) and of the ZPU interpreter, translated from the
Go sources.  Guest addresses (`mirv.Address`, a 64-bit unsigned integer)
are modelled as `Nat` together with explicit `% AddrSize` arithmetic at the
places where the Go code can wrap.  Fallible Go calls return explicit
result values; a Go run-time panic (slice index out of range, or an
explicit `panic`) is the distinguished outcome `GoRes.oob` /
`StepOut.panicked`.
-/

namespace Mirv

/-- Size of the 64-bit guest address space (`mirv.Address` is `uint`, 64 bits). -/
def AddrSize : Nat := 2 ^ 64

/-- Truncation to 32 bits, the Go `uint32` conversions of the ZPU. -/
def u32 (v : Nat) : Nat := v % 2 ^ 32

/-- Outcome of a Go call that can hit a run-time panic: `oob` is the Go
panic raised by an out-of-range slice expression, `ok` carries the
(value, error) pair the Go function returns. -/
inductive GoRes (α : Type) where
  | oob
  | ok (v : α)
deriving DecidableEq, Repr

/-- The two bus operations recorded in a bus error (`busOp` in bus.go). -/
inductive BusOp where
  | read
  | write
deriving DecidableEq, Repr

/-- ErrBus of bus.go: the operation, the access size in bytes and the
address passed to the void region. -/
structure ErrBus where
  op : BusOp
  sz : Nat
  addr : Nat
deriving DecidableEq, Repr

/-- The two error values a region access can produce: `errPage` from a RAM
bounds check, or an `ErrBus` from the `NoMemory` fallback. -/
inductive Err where
  | page
  | bus (e : ErrBus)
deriving DecidableEq, Repr

/-- Memory regions of package mem: the generated big-endian and
little-endian RAM types of mem_rw (byte buffers), and the `NoMemory`
sentinel used for unmapped addresses. -/
inductive Region where
  | le (data : List Nat)
  | be (data : List Nat)
  | noMem
deriving DecidableEq, Repr

/-- Size() of a region: the byte-buffer length for RAM, 0 for NoMemory. -/
def Region.size : Region → Nat
  | le d => d.length
  | be d => d.length
  | noMem => 0

/-- True for the two RAM variants. -/
def Region.isRAM : Region → Bool
  | le _ => true
  | be _ => true
  | noMem => false

/-! RAM accessors, translated from the generated `bigEndian` /
`littleEndian` methods.  Each method first evaluates the Go slice
expression `(*m)[addr:]`, which panics when `addr > len(*m)` (`GoRes.oob`),
then compares the remaining length against the access width
(`errPage`), then decodes or encodes through `encoding/binary`. -/

/-- Read8 body shared by both RAM variants: `(*m)[addr]` after the length
check `len((*m)[addr:]) < 1`. -/
def ramRead8 (d : List Nat) (addr : Nat) : GoRes (Nat × Option Err) :=
  if d.length < addr then .oob
  else if d.length - addr < 1 then .ok (0, some .page)
  else .ok (d.getD addr 0, none)

/-- Write8 body shared by both RAM variants. -/
def ramWrite8 (d : List Nat) (addr v : Nat) : GoRes (Option Err × List Nat) :=
  if d.length < addr then .oob
  else if d.length - addr < 1 then .ok (some .page, d)
  else .ok (none, d.set addr v)

/-- binary.LittleEndian.Uint16 on the slice starting at `addr`. -/
def leUint16 (d : List Nat) (addr : Nat) : Nat :=
  d.getD addr 0 + d.getD (addr + 1) 0 * 256

/-- binary.LittleEndian.Uint32 on the slice starting at `addr`. -/
def leUint32 (d : List Nat) (addr : Nat) : Nat :=
  d.getD addr 0 + d.getD (addr + 1) 0 * 256 + d.getD (addr + 2) 0 * 256 ^ 2 +
    d.getD (addr + 3) 0 * 256 ^ 3

/-- binary.LittleEndian.Uint64 on the slice starting at `addr`. -/
def leUint64 (d : List Nat) (addr : Nat) : Nat :=
  d.getD addr 0 + d.getD (addr + 1) 0 * 256 + d.getD (addr + 2) 0 * 256 ^ 2 +
    d.getD (addr + 3) 0 * 256 ^ 3 + d.getD (addr + 4) 0 * 256 ^ 4 +
    d.getD (addr + 5) 0 * 256 ^ 5 + d.getD (addr + 6) 0 * 256 ^ 6 +
    d.getD (addr + 7) 0 * 256 ^ 7

/-- binary.BigEndian.Uint16 on the slice starting at `addr`. -/
def beUint16 (d : List Nat) (addr : Nat) : Nat :=
  d.getD (addr + 1) 0 + d.getD addr 0 * 256

/-- binary.BigEndian.Uint32 on the slice starting at `addr`. -/
def beUint32 (d : List Nat) (addr : Nat) : Nat :=
  d.getD (addr + 3) 0 + d.getD (addr + 2) 0 * 256 + d.getD (addr + 1) 0 * 256 ^ 2 +
    d.getD addr 0 * 256 ^ 3

/-- binary.BigEndian.Uint64 on the slice starting at `addr`. -/
def beUint64 (d : List Nat) (addr : Nat) : Nat :=
  d.getD (addr + 7) 0 + d.getD (addr + 6) 0 * 256 + d.getD (addr + 5) 0 * 256 ^ 2 +
    d.getD (addr + 4) 0 * 256 ^ 3 + d.getD (addr + 3) 0 * 256 ^ 4 +
    d.getD (addr + 2) 0 * 256 ^ 5 + d.getD (addr + 1) 0 * 256 ^ 6 +
    d.getD addr 0 * 256 ^ 7

/-- Byte `k` of a value in little-endian order. -/
def leByte (v k : Nat) : Nat := v / 256 ^ k % 256

/-- binary.LittleEndian.PutUint16: b[0]=byte(v); b[1]=byte(v>>8). -/
def lePut16 (d : List Nat) (addr v : Nat) : List Nat :=
  ((d.set addr (leByte v 0)).set (addr + 1) (leByte v 1))

/-- binary.LittleEndian.PutUint32. -/
def lePut32 (d : List Nat) (addr v : Nat) : List Nat :=
  ((((d.set addr (leByte v 0)).set (addr + 1) (leByte v 1)).set
      (addr + 2) (leByte v 2)).set (addr + 3) (leByte v 3))

/-- binary.LittleEndian.PutUint64. -/
def lePut64 (d : List Nat) (addr v : Nat) : List Nat :=
  ((((((((d.set addr (leByte v 0)).set (addr + 1) (leByte v 1)).set
      (addr + 2) (leByte v 2)).set (addr + 3) (leByte v 3)).set
      (addr + 4) (leByte v 4)).set (addr + 5) (leByte v 5)).set
      (addr + 6) (leByte v 6)).set (addr + 7) (leByte v 7))

/-- binary.BigEndian.PutUint16: b[0]=byte(v>>8); b[1]=byte(v). -/
def bePut16 (d : List Nat) (addr v : Nat) : List Nat :=
  ((d.set addr (leByte v 1)).set (addr + 1) (leByte v 0))

/-- binary.BigEndian.PutUint32. -/
def bePut32 (d : List Nat) (addr v : Nat) : List Nat :=
  ((((d.set addr (leByte v 3)).set (addr + 1) (leByte v 2)).set
      (addr + 2) (leByte v 1)).set (addr + 3) (leByte v 0))

/-- binary.BigEndian.PutUint64. -/
def bePut64 (d : List Nat) (addr v : Nat) : List Nat :=
  ((((((((d.set addr (leByte v 7)).set (addr + 1) (leByte v 6)).set
      (addr + 2) (leByte v 5)).set (addr + 3) (leByte v 4)).set
      (addr + 4) (leByte v 3)).set (addr + 5) (leByte v 2)).set
      (addr + 6) (leByte v 1)).set (addr + 7) (leByte v 0))

/-- RAM read of width `k` bytes with decoder `dec`: slice panic, length
check, decode — the common shape of the generated Read16/32/64 methods. -/
def ramReadW (k : Nat) (dec : List Nat → Nat → Nat) (d : List Nat) (addr : Nat) :
    GoRes (Nat × Option Err) :=
  if d.length < addr then .oob
  else if d.length - addr < k then .ok (0, some .page)
  else .ok (dec d addr, none)

/-- RAM write of width `k` bytes with encoder `enc`. -/
def ramWriteW (k : Nat) (enc : List Nat → Nat → Nat → List Nat) (d : List Nat)
    (addr v : Nat) : GoRes (Option Err × List Nat) :=
  if d.length < addr then .oob
  else if d.length - addr < k then .ok (some .page, d)
  else .ok (none, enc d addr v)

/-! Region dispatch, the `Interface` method set used by the bus.  `NoMemory`
(part_006 lines 302-348) returns 0 and an `ErrBus` recording the op, the
width in bytes and the address it was handed. -/

/-- Read8 of the interface: RAM byte read or the NoMemory bus error. -/
def Region.Read8 : Region → Nat → GoRes (Nat × Option Err)
  | le d, addr => ramRead8 d addr
  | be d, addr => ramRead8 d addr
  | noMem, addr => .ok (0, some (.bus ⟨.read, 1, addr⟩))

/-- Write8 of the interface. -/
def Region.Write8 : Region → Nat → Nat → GoRes (Option Err × Region)
  | le d, addr, v =>
    match ramWrite8 d addr v with
    | .oob => .oob
    | .ok (e, d') => .ok (e, le d')
  | be d, addr, v =>
    match ramWrite8 d addr v with
    | .oob => .oob
    | .ok (e, d') => .ok (e, be d')
  | noMem, addr, _ => .ok (some (.bus ⟨.write, 1, addr⟩), noMem)

/-- Read16 of the interface, using the region's own byte order. -/
def Region.Read16 : Region → Nat → GoRes (Nat × Option Err)
  | le d, addr => ramReadW 2 leUint16 d addr
  | be d, addr => ramReadW 2 beUint16 d addr
  | noMem, addr => .ok (0, some (.bus ⟨.read, 2, addr⟩))

/-- Write16 of the interface. -/
def Region.Write16 : Region → Nat → Nat → GoRes (Option Err × Region)
  | le d, addr, v =>
    match ramWriteW 2 lePut16 d addr v with
    | .oob => .oob
    | .ok (e, d') => .ok (e, le d')
  | be d, addr, v =>
    match ramWriteW 2 bePut16 d addr v with
    | .oob => .oob
    | .ok (e, d') => .ok (e, be d')
  | noMem, addr, _ => .ok (some (.bus ⟨.write, 2, addr⟩), noMem)

/-- Read32 of the interface. -/
def Region.Read32 : Region → Nat → GoRes (Nat × Option Err)
  | le d, addr => ramReadW 4 leUint32 d addr
  | be d, addr => ramReadW 4 beUint32 d addr
  | noMem, addr => .ok (0, some (.bus ⟨.read, 4, addr⟩))

/-- Write32 of the interface. -/
def Region.Write32 : Region → Nat → Nat → GoRes (Option Err × Region)
  | le d, addr, v =>
    match ramWriteW 4 lePut32 d addr v with
    | .oob => .oob
    | .ok (e, d') => .ok (e, le d')
  | be d, addr, v =>
    match ramWriteW 4 bePut32 d addr v with
    | .oob => .oob
    | .ok (e, d') => .ok (e, be d')
  | noMem, addr, _ => .ok (some (.bus ⟨.write, 4, addr⟩), noMem)

/-- Read64 of the interface. -/
def Region.Read64 : Region → Nat → GoRes (Nat × Option Err)
  | le d, addr => ramReadW 8 leUint64 d addr
  | be d, addr => ramReadW 8 beUint64 d addr
  | noMem, addr => .ok (0, some (.bus ⟨.read, 8, addr⟩))

/-- Write64 of the interface. -/
def Region.Write64 : Region → Nat → Nat → GoRes (Option Err × Region)
  | le d, addr, v =>
    match ramWriteW 8 lePut64 d addr v with
    | .oob => .oob
    | .ok (e, d') => .ok (e, le d')
  | be d, addr, v =>
    match ramWriteW 8 bePut64 d addr v with
    | .oob => .oob
    | .ok (e, d') => .ok (e, be d')
  | noMem, addr, _ => .ok (some (.bus ⟨.write, 8, addr⟩), noMem)

/-! The bus of part_005 (bus.go of package mem).  A `block` is a routing
record `{s, e, m}`; `m` is modelled as an index into a region store owned
by the bus, which gives Go's pointer semantics for region mutation.  Index
0 of the store is the `NoMemory` sentinel region (`nilMemory.m`). -/

/-- block of bus.go: start address, inclusive end address, region id. -/
structure Block where
  s : Nat
  e : Nat
  m : Nat
deriving DecidableEq, Repr

instance : Inhabited Block := ⟨⟨0, 0, 0⟩⟩

/-- nilMemory of bus.go: `{s: ^Address(0), e: 0, m: NoMemory{}}`. -/
def nilMemory : Block := ⟨AddrSize - 1, 0, 0⟩

/-- block.overlaps: `blk.s >= b.s && blk.s <= b.e || b.s >= blk.s && b.s <= blk.e`. -/
def Block.overlapsB (b blk : Block) : Prop :=
  (b.s ≤ blk.s ∧ blk.s ≤ b.e) ∨ (blk.s ≤ b.s ∧ b.s ≤ blk.e)

instance (b blk : Block) : Decidable (b.overlapsB blk) := by
  unfold Block.overlapsB; infer_instance

/-- block.contains on a possibly-nil pointer:
`b != nil && addr <= b.e && addr >= b.s`. -/
def containsO (b : Option Block) (addr : Nat) : Prop :=
  match b with
  | none => False
  | some blk => addr ≤ blk.e ∧ blk.s ≤ addr

instance (b : Option Block) (addr : Nat) : Decidable (containsO b addr) := by
  unfold containsO; cases b <;> infer_instance

/-- contains for a block known to be non-nil. -/
def Block.containsB (blk : Block) (addr : Nat) : Prop :=
  addr ≤ blk.e ∧ blk.s ≤ addr

instance (blk : Block) (addr : Nat) : Decidable (blk.containsB addr) := by
  unfold Block.containsB; infer_instance

/-- Bus of bus.go: the ordered block sequence `b`, the preferred block `p`,
plus the region store standing in for the Go heap. -/
structure Bus where
  b : List Block
  p : Option Block
  store : List Region
deriving DecidableEq, Repr

/-- The zero-value bus `var b Bus`, with the sentinel region at store
index 0. -/
def Bus.empty : Bus := ⟨[], none, [.noMem]⟩

/-- Dereference a region id, defaulting to the sentinel. -/
def Bus.reg (bus : Bus) (i : Nat) : Region := bus.store.getD i .noMem

/-- Map and remap errors of bus.go: errOverlap and errOverflow. -/
inductive MErr where
  | overlap
  | overflow
deriving DecidableEq, Repr

/-- insertIdx's binary-search loop over the window `[l, h)`; returns -1 as
soon as a probed block overlaps the candidate.  The loop is driven by a
structural fuel counter that bounds the window width; `insertIdxGo` below
instantiates it with the width itself, so the two are exactly the Go
loop. -/
def insertIdxF (bs : List Block) (blk : Block) : Nat → Nat → Nat → Int
  | 0, l, _ => (l : Int)
  | fuel + 1, l, h =>
    if h ≤ l then (l : Int)
    else
      let bi := bs.getD (l + (h - l) / 2) default
      if blk.overlapsB bi then -1
      else if blk.s < bi.s then insertIdxF bs blk fuel l (l + (h - l) / 2)
      else insertIdxF bs blk fuel (l + (h - l) / 2 + 1) h

/-- The Go loop `for l != h` of insertIdx. -/
def insertIdxGo (bs : List Block) (blk : Block) (l h : Nat) : Int :=
  insertIdxF bs blk (h - l) l h

/-- Bus.insertIdx. -/
def Bus.insertIdxB (bus : Bus) (blk : Block) : Int :=
  insertIdxGo bus.b blk 0 bus.b.length

/-- Bus.insert: the first block on a virgin bus goes into the preferred
slot; otherwise check the preferred block and the binary search for
overlap and splice the block into the sequence. -/
def Bus.insertB (bus : Bus) (blk : Block) : Option MErr × Bus :=
  if bus.b.length = 0 ∧ bus.p = none then (none, { bus with p := some blk })
  else
    let i := bus.insertIdxB blk
    if (bus.p.isSome ∧ blk.overlapsB (bus.p.getD default)) ∨ i < 0 then (some .overlap, bus)
    else (none, { bus with b := bus.b.insertIdx i.toNat blk })

/-- Bus.Map: empty regions are a no-op, `end = addr + size - 1` checked
for wrap, then insert.  The fresh region is appended to the store and the
new block references it; a failed insert leaves the bus untouched. -/
def Bus.Map (bus : Bus) (addr : Nat) (r : Region) : Option MErr × Bus :=
  if r.size = 0 then (none, bus)
  else
    let e := (addr + (r.size - 1)) % AddrSize
    if e < addr then (some .overflow, bus)
    else
      let bus' := { bus with store := bus.store ++ [r] }
      match bus'.insertB ⟨addr, e, bus.store.length⟩ with
      | (some er, _) => (some er, bus)
      | (none, bus'') => (none, bus'')

/-- find's binary-search loop (bus.go): narrows the slice itself and
returns the probed block on a hit.  Structural fuel bounds the slice
length; `findGo` instantiates it with the length. -/
def findGoF : Nat → List Block → Nat → Option Block
  | 0, _, _ => none
  | fuel + 1, bb, addr =>
    if bb.length = 0 then none
    else
      let blk := bb.getD (bb.length / 2) default
      if addr < blk.s then findGoF fuel (bb.take (bb.length / 2)) addr
      else if blk.e < addr then findGoF fuel (bb.drop (bb.length / 2 + 1)) addr
      else some blk

/-- The Go loop `for l := len(bb); l > 0` of find. -/
def findGo (bb : List Block) (addr : Nat) : Option Block :=
  findGoF bb.length bb addr

/-- findIdx's loop (bus.go).  Note: the returned index is the probe index
`i` relative to the current narrowed sub-slice, exactly as the Go code
computes it (no base offset is accumulated across the narrowing). -/
def findIdxF : Nat → List Block → Nat → Int
  | 0, _, _ => -1
  | fuel + 1, bb, addr =>
    if bb.length = 0 then -1
    else
      let blk := bb.getD (bb.length / 2) default
      if addr < blk.s then findIdxF fuel (bb.take (bb.length / 2)) addr
      else if blk.e < addr then findIdxF fuel (bb.drop (bb.length / 2 + 1)) addr
      else ((bb.length / 2 : Nat) : Int)

/-- The Go loop of findIdx. -/
def findIdxGo (bb : List Block) (addr : Nat) : Int :=
  findIdxF bb.length bb addr

/-- Bus.findIdx. -/
def Bus.findIdxB (bus : Bus) (addr : Nat) : Int :=
  findIdxGo bus.b addr

/-- Bus.find: the containing block or nilMemory. -/
def Bus.findB (bus : Bus) (addr : Nat) : Block :=
  (findGo bus.b addr).getD nilMemory

/-- Bus.memory: check the preferred block first, then find. -/
def Bus.memoryB (bus : Bus) (addr : Nat) : Block :=
  if containsO bus.p addr then bus.p.getD default else bus.findB addr

/-- Bus.Memory (exported): with an empty sequence it short-circuits to
`(0, nilMemory.m)`; otherwise it returns the start and region id of the
block `memory` resolves (nilMemory for unmapped addresses). -/
def Bus.Memory (bus : Bus) (addr : Nat) : Nat × Nat :=
  if bus.b.length = 0 then (0, nilMemory.m)
  else
    let e := bus.memoryB addr
    (e.s, e.m)

/-- Bus.Preferred: a no-op when the preferred block already contains
`addr` or when `findIdx` reports a miss; otherwise swap the preferred
block back into the sequence at its insertion index and promote the block
at index `o`, shifting the elements in between.  The slice surgery of the
Go code (`copy` left or right, then one overwrite) is expressed as an
erase at `o` followed by an insert of the old preferred block. -/
def Bus.Preferred (bus : Bus) (addr : Nat) : Bus :=
  if containsO bus.p addr then bus
  else
    let o := bus.findIdxB addr
    if o < 0 then bus
    else
      match bus.p with
      | none =>
        { bus with p := some (bus.b.getD o.toNat default), b := bus.b.eraseIdx o.toNat }
      | some pb =>
        let i := bus.insertIdxB pb
        let pos := if o < i then i.toNat - 1 else i.toNat
        { bus with
            p := some (bus.b.getD o.toNat default)
            b := (bus.b.eraseIdx o.toNat).insertIdx pos pb }

/-- Bus.Remap: a bare no-op when the preferred block contains `addr`; a
plain Map when `findIdx` misses; otherwise replace the region and end of
the block at the reported index, rejecting a grow that would reach the
next block's start.  `end = addr + (size - 1)` with uint wrap-around. -/
def Bus.Remap (bus : Bus) (addr : Nat) (r : Region) : Option MErr × Bus :=
  if containsO bus.p addr then (none, bus)
  else
    let i := bus.findIdxB addr
    if i < 0 then bus.Map addr r
    else
      let blk := bus.b.getD i.toNat default
      let e := (addr + (r.size + AddrSize - 1) % AddrSize) % AddrSize
      if r.size > (bus.reg blk.m).size ∧ i.toNat < bus.b.length - 1 ∧
          (bus.b.getD (i.toNat + 1) default).s ≤ e then
        (some .overlap, bus)
      else
        (none, { bus with
                   b := bus.b.set i.toNat { blk with m := bus.store.length, e := e }
                   store := bus.store ++ [r] })

/-! Sized access (bus_rw.go): resolve through the preferred block or
`find`, then delegate to the region at the block-relative offset
`addr - blk.s` (uint subtraction, hence the `% AddrSize` wrap). -/

/-- The block a sized access uses: `blk := b.p; if !blk.contains(addr) { blk = b.find(addr) }`. -/
def Bus.rwBlock (bus : Bus) (addr : Nat) : Block :=
  if containsO bus.p addr then bus.p.getD default else bus.findB addr

/-- Block-relative offset `addr - blk.s` with uint wrap-around. -/
def offIn (addr s : Nat) : Nat := (addr + AddrSize - s) % AddrSize

/-- Bus.Read8. -/
def Bus.Read8 (bus : Bus) (addr : Nat) : GoRes (Nat × Option Err) :=
  (bus.reg (bus.rwBlock addr).m).Read8 (offIn addr (bus.rwBlock addr).s)

/-- Bus.Write8; the written region is stored back through its id, the
routing fields are untouched. -/
def Bus.Write8 (bus : Bus) (addr v : Nat) : GoRes (Option Err × Bus) :=
  match (bus.reg (bus.rwBlock addr).m).Write8 (offIn addr (bus.rwBlock addr).s) v with
  | .oob => .oob
  | .ok (e, r') => .ok (e, { bus with store := bus.store.set (bus.rwBlock addr).m r' })

/-- Bus.Read16. -/
def Bus.Read16 (bus : Bus) (addr : Nat) : GoRes (Nat × Option Err) :=
  (bus.reg (bus.rwBlock addr).m).Read16 (offIn addr (bus.rwBlock addr).s)

/-- Bus.Write16. -/
def Bus.Write16 (bus : Bus) (addr v : Nat) : GoRes (Option Err × Bus) :=
  match (bus.reg (bus.rwBlock addr).m).Write16 (offIn addr (bus.rwBlock addr).s) v with
  | .oob => .oob
  | .ok (e, r') => .ok (e, { bus with store := bus.store.set (bus.rwBlock addr).m r' })

/-- Bus.Read32. -/
def Bus.Read32 (bus : Bus) (addr : Nat) : GoRes (Nat × Option Err) :=
  (bus.reg (bus.rwBlock addr).m).Read32 (offIn addr (bus.rwBlock addr).s)

/-- Bus.Write32. -/
def Bus.Write32 (bus : Bus) (addr v : Nat) : GoRes (Option Err × Bus) :=
  match (bus.reg (bus.rwBlock addr).m).Write32 (offIn addr (bus.rwBlock addr).s) v with
  | .oob => .oob
  | .ok (e, r') => .ok (e, { bus with store := bus.store.set (bus.rwBlock addr).m r' })

/-- Bus.Read64. -/
def Bus.Read64 (bus : Bus) (addr : Nat) : GoRes (Nat × Option Err) :=
  (bus.reg (bus.rwBlock addr).m).Read64 (offIn addr (bus.rwBlock addr).s)

/-- Bus.Write64. -/
def Bus.Write64 (bus : Bus) (addr v : Nat) : GoRes (Option Err × Bus) :=
  match (bus.reg (bus.rwBlock addr).m).Write64 (offIn addr (bus.rwBlock addr).s) v with
  | .oob => .oob
  | .ok (e, r') => .ok (e, { bus with store := bus.store.set (bus.rwBlock addr).m r' })

/-- busWriter.Write's loop: `blk` is the cached block (a Go pointer,
carried here as a block value whose region id addresses the store); on
`w.addr > blk.e` the block is re-resolved through `memory`; a failed
byte write ends the stream with `io.EOF` (the `Bool`).  The address
advances with uint wrap-around.  `writerBlk` is the boundary test: on
`w.addr > blk.e` the cached block is re-resolved through `memory`. -/
def writerBlk (bus : Bus) (blk : Block) (waddr : Nat) : Block :=
  if blk.e < waddr then bus.memoryB waddr else blk

def writerLoop (bus : Bus) (blk : Block) (waddr : Nat) (p : List Nat) (n : Nat) :
    GoRes (Nat × Bool × Bus) :=
  match p with
  | [] => .ok (n, false, bus)
  | c :: rest =>
    match (bus.reg (writerBlk bus blk waddr).m).Write8
        (offIn waddr (writerBlk bus blk waddr).s) c with
    | .oob => .oob
    | .ok (some _, _) => .ok (n, true, bus)
    | .ok (none, r') =>
      writerLoop { bus with store := bus.store.set (writerBlk bus blk waddr).m r' }
        (writerBlk bus blk waddr) ((waddr + 1) % AddrSize) rest (n + 1)

/-- busWriter.Write for the writer returned by Bus.Writer(addr): the
cached block starts as `b.memory(addr)` and the byte count at 0. -/
def Bus.writerWrite (bus : Bus) (addr : Nat) (p : List Nat) : GoRes (Nat × Bool × Bus) :=
  writerLoop bus (bus.memoryB addr) addr p 0

/-! The ZPU interpreter (package zpu, the revision whose Step returns the
consumed cycle count).  Stack accesses go through `Read32BE`/`Write32BE`;
that generated big-endian bus accessor is not present in the sources for
this bus revision, so it is reconstructed here as the block resolution of
bus_rw.go composed with the `Read32BE`/`Write32BE` bodies of the `memory`
type in mem.go (length check `len(*m)-int(addr) < 4`, then
`encoding/binary` big-endian).  Any bus error makes the Go helpers
`read8`/`read32`/`write32` panic, which unwinds out of `Step`
(`StepOut.panicked`). -/

/-- Big-endian 32-bit bus read used by the ZPU stack helpers. -/
def Bus.Read32BE (bus : Bus) (addr : Nat) : GoRes (Nat × Option Err) :=
  let blk := bus.rwBlock addr
  match bus.reg blk.m with
  | .le d =>
    if d.length < offIn addr blk.s + 4 then .ok (0, some .page)
    else .ok (beUint32 d (offIn addr blk.s), none)
  | .be d =>
    if d.length < offIn addr blk.s + 4 then .ok (0, some .page)
    else .ok (beUint32 d (offIn addr blk.s), none)
  | .noMem => .ok (0, some (.bus ⟨.read, 4, offIn addr blk.s⟩))

/-- Big-endian 32-bit bus write used by the ZPU stack helpers. -/
def Bus.Write32BE (bus : Bus) (addr v : Nat) : GoRes (Option Err × Bus) :=
  let blk := bus.rwBlock addr
  match bus.reg blk.m with
  | .le d =>
    if d.length < offIn addr blk.s + 4 then .ok (some .page, bus)
    else .ok (none, { bus with store := bus.store.set blk.m (.le (bePut32 d (offIn addr blk.s) v)) })
  | .be d =>
    if d.length < offIn addr blk.s + 4 then .ok (some .page, bus)
    else .ok (none, { bus with store := bus.store.set blk.m (.be (bePut32 d (offIn addr blk.s) v)) })
  | .noMem => .ok (some (.bus ⟨.write, 4, offIn addr blk.s⟩), bus)

/-- State of a ZPU instance (pc, sp, idim, halted). -/
structure ZState where
  pc : Nat
  sp : Nat
  idim : Bool
  halted : Bool
deriving DecidableEq, Repr

/-- State.read8: panics (`none`) unless the bus read succeeds. -/
def zread8 (bus : Bus) (addr : Nat) : Option Nat :=
  match bus.Read8 addr with
  | .ok (v, none) => some v
  | _ => none

/-- State.read32: big-endian 32-bit read, panicking on error. -/
def zread32 (bus : Bus) (addr : Nat) : Option Nat :=
  match bus.Read32BE addr with
  | .ok (v, none) => some v
  | _ => none

/-- State.write32: big-endian 32-bit write, panicking on error. -/
def zwrite32 (bus : Bus) (addr v : Nat) : Option Bus :=
  match bus.Write32BE addr v with
  | .ok (none, b') => some b'
  | _ => none

/-- State.pop: read the top of stack, then `sp += 4`. -/
def zpop (bus : Bus) (s : ZState) : Option (Nat × ZState) :=
  match zread32 bus s.sp with
  | none => none
  | some v => some (v, { s with sp := (s.sp + 4) % AddrSize })

/-- State.push: `sp -= 4`, then write the value at the new sp. -/
def zpush (bus : Bus) (s : ZState) (v : Nat) : Option (ZState × Bus) :=
  let sp' := (s.sp + AddrSize - 4) % AddrSize
  match zwrite32 bus sp' v with
  | none => none
  | some bus' => some ({ s with sp := sp' }, bus')

/-- Sign extension of the 7 immediate bits:
`uint32(int32(insn) << 25 >> 25)`. -/
def imValue (insn : Nat) : Nat :=
  let x := insn &&& 0x7F
  if x < 64 then x else 2 ^ 32 - 128 + x

/-- The bit-reversal sequence of the flip opcode, each Go line truncated
to uint32. -/
def zflip (v : Nat) : Nat :=
  let v1 := u32 ((v &&& 0x55555555) <<< 1 ||| (v >>> 1) &&& 0x55555555)
  let v2 := u32 ((v1 &&& 0x33333333) <<< 2 ||| (v1 >>> 2) &&& 0x33333333)
  let v3 := u32 ((v2 &&& 0x0F0F0F0F) <<< 4 ||| (v2 >>> 4) &&& 0x0F0F0F0F)
  u32 ((v3 <<< 24) ||| ((v3 &&& 0xFF00) <<< 8) ||| ((v3 >>> 8) &&& 0xFF00) ||| (v3 >>> 24))

/-- Result of executing one non-immediate instruction: a panic, the
breakpoint early return, or the mutated state with the `incPC` flag. -/
inductive ExecOut where
  | panicked
  | brk
  | okI (incPC : Bool) (s : ZState) (bus : Bus)
deriving DecidableEq, Repr

/-- The instruction switch of State.Step (case opBreakPoint through the
masked default cases), executed after idim has been cleared. -/
def zexec (bus : Bus) (s : ZState) (insn : Nat) : ExecOut :=
  if insn = 0x00 then .brk
  else if insn = 0x04 then
    match zpop bus s with
    | none => .panicked
    | some (v, s1) => .okI false { s1 with pc := v } bus
  else if insn = 0x08 then
    match zread32 bus s.sp with
    | none => .panicked
    | some tos =>
      match zread32 bus (tos &&& 0xFFFFFFFC) with
      | none => .panicked
      | some v =>
        match zwrite32 bus s.sp v with
        | none => .panicked
        | some bus' => .okI true s bus'
  else if insn = 0x0C then
    match zpop bus s with
    | none => .panicked
    | some (a, s1) =>
      match zpop bus s1 with
      | none => .panicked
      | some (v, s2) =>
        match zwrite32 bus (a &&& 0xFFFFFFFC) v with
        | none => .panicked
        | some bus' => .okI true s2 bus'
  else if insn = 0x02 then
    match zpush bus s (u32 s.sp) with
    | none => .panicked
    | some (s1, bus') => .okI true s1 bus'
  else if insn = 0x0D then
    match zpop bus s with
    | none => .panicked
    | some (v, s1) => .okI true { s1 with sp := v } bus
  else if insn = 0x05 then
    match zpop bus s with
    | none => .panicked
    | some (y, s1) =>
      match zread32 bus s1.sp with
      | none => .panicked
      | some t =>
        match zwrite32 bus s1.sp (u32 (t + y)) with
        | none => .panicked
        | some bus' => .okI true s1 bus'
  else if insn = 0x06 then
    match zpop bus s with
    | none => .panicked
    | some (y, s1) =>
      match zread32 bus s1.sp with
      | none => .panicked
      | some t =>
        match zwrite32 bus s1.sp (t &&& y) with
        | none => .panicked
        | some bus' => .okI true s1 bus'
  else if insn = 0x07 then
    match zpop bus s with
    | none => .panicked
    | some (y, s1) =>
      match zread32 bus s1.sp with
      | none => .panicked
      | some t =>
        match zwrite32 bus s1.sp (t ||| y) with
        | none => .panicked
        | some bus' => .okI true s1 bus'
  else if insn = 0x09 then
    match zread32 bus s.sp with
    | none => .panicked
    | some t =>
      match zwrite32 bus s.sp (t ^^^ 0xFFFFFFFF) with
      | none => .panicked
      | some bus' => .okI true s bus'
  else if insn = 0x0A then
    match zread32 bus s.sp with
    | none => .panicked
    | some t =>
      match zwrite32 bus s.sp (zflip t) with
      | none => .panicked
      | some bus' => .okI true s bus'
  else if insn = 0x0B then .okI true s bus
  else if insn = 40 then
    match zread32 bus s.sp with
    | none => .panicked
    | some v =>
      match zwrite32 bus s.sp (u32 ((v <<< 16) ||| (v >>> 16))) with
      | none => .panicked
      | some bus' => .okI true s bus'
  else if insn = 60 then .okI true s bus
  else if insn &&& 0xE0 = 0x40 then
    let a := (s.sp + ((insn - 0x40) ^^^ 0x10) * 4) % AddrSize
    match zpop bus s with
    | none => .panicked
    | some (v, s1) =>
      match zwrite32 bus a v with
      | none => .panicked
      | some bus' => .okI true s1 bus'
  else if insn &&& 0xE0 = 0x60 then
    let a := (s.sp + ((insn - 0x60) ^^^ 0x10) * 4) % AddrSize
    match zread32 bus a with
    | none => .panicked
    | some v =>
      match zpush bus s v with
      | none => .panicked
      | some (s1, bus') => .okI true s1 bus'
  else if insn &&& 0xF0 = 0x10 then
    let a := (s.sp + (insn - 0x10) * 4) % AddrSize
    match zread32 bus s.sp with
    | none => .panicked
    | some t =>
      match zread32 bus a with
      | none => .panicked
      | some v =>
        match zwrite32 bus s.sp (u32 (t + v)) with
        | none => .panicked
        | some bus' => .okI true s bus'
  else if insn &&& 0xE0 = 0x20 then
    match zpush bus s (u32 (u32 s.pc + 1)) with
    | none => .panicked
    | some (s1, bus') => .okI false { s1 with pc := (insn - 0x20) * 32 } bus'
  else .okI true s bus

/-- Outcome of a Step call: the returned cycle count with the final state,
or the propagation of a Go panic raised by a failed bus access. -/
inductive StepOut where
  | done (consumed : Nat) (s : ZState) (bus : Bus)
  | panicked
deriving DecidableEq, Repr

/-- The cycle loop of State.Step: fetch, the immediate fast path, then
the instruction switch; breakpoint returns `n - cycles`, a bus-access
panic aborts the whole call. -/
def stepLoop (n : Nat) : Nat → Bus → ZState → StepOut
  | 0, bus, s => .done (n - 0) s bus
  | c + 1, bus, s =>
    if s.halted then .done (n - (c + 1)) s bus
    else
      match zread8 bus s.pc with
      | none => .panicked
      | some insn =>
        if insn &&& 0x80 = 0x80 then
          if s.idim then
            match zread32 bus s.sp with
            | none => .panicked
            | some tos =>
              match zwrite32 bus s.sp (u32 ((tos <<< 7) ||| (insn &&& 0x7F))) with
              | none => .panicked
              | some bus' => stepLoop n c bus' { s with pc := (s.pc + 1) % AddrSize }
          else
            match zpush bus s (imValue insn) with
            | none => .panicked
            | some (s1, bus') =>
              stepLoop n c bus'
                { s1 with idim := true, pc := (s.pc + 1) % AddrSize }
        else
          let s1 := { s with idim := false }
          match zexec bus s1 insn with
          | .panicked => .panicked
          | .brk => .done (n - (c + 1)) s1 bus
          | .okI inc s2 bus' =>
            stepLoop n c bus'
              (if inc then { s2 with pc := (s2.pc + 1) % AddrSize } else s2)

/-- State.Step: run up to `n` cycles and report how many were performed. -/
def ZState.Step (s : ZState) (bus : Bus) (n : Nat) : StepOut :=
  stepLoop n n bus s

/-! Well-formedness of a bus: the invariants the documented API maintains
(blocks sorted and disjoint, block ends matching region sizes, the
preferred block outside the sequence and disjoint from it, distinct
backing regions, the sentinel at store index 0).  Witness buses built by
`Map` calls satisfy it by `decide`. -/

/-- A block is internally consistent with the bus's store. -/
def Bus.wfBlk (bus : Bus) (blk : Block) : Prop :=
  blk.s ≤ blk.e ∧ blk.e < AddrSize ∧ (bus.reg blk.m).isRAM = true ∧
    (bus.reg blk.m).size = blk.e - blk.s + 1 ∧ blk.m ≠ 0 ∧ blk.m < bus.store.length

instance (bus : Bus) (blk : Block) : Decidable (bus.wfBlk blk) := by
  unfold Bus.wfBlk; infer_instance

/-- All blocks the bus routes to: the preferred slot and the sequence. -/
def Bus.blocks (bus : Bus) : List Block := bus.p.toList ++ bus.b

/-- The bus invariant. -/
def Bus.wf (bus : Bus) : Prop :=
  bus.b.Pairwise (fun a b => a.e < b.s) ∧
    (∀ blk ∈ bus.blocks, bus.wfBlk blk) ∧
    (∀ pb ∈ bus.p.toList, ∀ blk ∈ bus.b, pb.e < blk.s ∨ blk.e < pb.s) ∧
    bus.blocks.Pairwise (fun a b => a.m ≠ b.m) ∧
    bus.reg 0 = .noMem

instance (bus : Bus) : Decidable bus.wf := by
  unfold Bus.wf; infer_instance

/-- An address is mapped when some routed block contains it. -/
def Bus.mapped (bus : Bus) (addr : Nat) : Prop :=
  ∃ blk ∈ bus.blocks, blk.containsB addr

instance (bus : Bus) (addr : Nat) : Decidable (bus.mapped addr) := by
  unfold Bus.mapped; infer_instance

/-- On a sorted sequence of blocks with coherent ends, `find`'s bisection
(with enough fuel) returns the member block containing the address. -/
theorem findGoF_mem (fuel : Nat) (l : List Block) (addr : Nat)
    (hfuel : l.length ≤ fuel)
    (hp : l.Pairwise (fun a b => a.e < b.s)) (hwf : ∀ b ∈ l, b.s ≤ b.e)
    (blk : Block) (hmem : blk ∈ l) (hc : blk.containsB addr) :
    findGoF fuel l addr = some blk := by
  induction fuel generalizing l with
  | zero =>
    have : l = [] := List.length_eq_zero.mp (by omega)
    subst this; simp at hmem
  | succ fuel ih =>
    obtain ⟨hca, hcs⟩ := hc
    obtain ⟨j, hj, hblk⟩ := List.mem_iff_getElem.mp hmem
    rw [findGoF]
    have hlen : l.length ≠ 0 := by intro h0; omega
    simp only [hlen, if_neg, not_false_iff]
    have hi : l.length / 2 < l.length := by omega
    rw [List.getD_eq_getElem l default hi]
    have hpg := List.pairwise_iff_getElem.mp hp
    by_cases h1 : addr < l[l.length / 2].s
    · -- the hit is strictly left of the probe
      have hjlt : j < l.length / 2 := by
        by_contra hge
        push_neg at hge
        rcases Nat.lt_or_ge (l.length / 2) j with hlt | hge'
        · have := hpg (l.length / 2) j hi hj hlt
          have hsle := hwf l[l.length / 2] (List.getElem_mem hi)
          subst hblk; omega
        · have : j = l.length / 2 := by omega
          subst this; subst hblk; omega
      rw [if_pos h1]
      have hjt : j < (l.take (l.length / 2)).length := by
        simp [List.length_take]; omega
      refine ih (l.take (l.length / 2)) (by simp [List.length_take]; omega)
        (hp.sublist (List.take_sublist _ _))
        (fun b hb => hwf b (List.mem_of_mem_take hb)) ?_
      refine List.mem_iff_getElem.mpr ⟨j, hjt, ?_⟩
      rw [List.getElem_take]
      exact hblk
    · rw [if_neg h1]
      push_neg at h1
      by_cases h2 : l[l.length / 2].e < addr
      · -- the hit is strictly right of the probe
        have hjgt : l.length / 2 < j := by
          by_contra hge
          push_neg at hge
          rcases Nat.lt_or_ge j (l.length / 2) with hlt | hge'
          · have := hpg j (l.length / 2) hj hi hlt
            subst hblk; omega
          · have : j = l.length / 2 := by omega
            subst this; subst hblk; omega
        rw [if_pos h2]
        have hjd : j - (l.length / 2 + 1) < (l.drop (l.length / 2 + 1)).length := by
          simp [List.length_drop]; omega
        refine ih (l.drop (l.length / 2 + 1)) (by simp [List.length_drop]; omega)
          (hp.sublist (List.drop_sublist _ _))
          (fun b hb => hwf b (List.mem_of_mem_drop hb)) ?_
        refine List.mem_iff_getElem.mpr ⟨j - (l.length / 2 + 1), hjd, ?_⟩
        rw [List.getElem_drop]
        have : l.length / 2 + 1 + (j - (l.length / 2 + 1)) = j := by omega
        simp only [this]
        exact hblk
      · -- the probe is the hit
        rw [if_neg h2]
        push_neg at h2
        congr 1
        rcases Nat.lt_trichotomy j (l.length / 2) with hlt | heq | hgt
        · have := hpg j (l.length / 2) hj hi hlt
          subst hblk; omega
        · subst heq; exact hblk.symm ▸ rfl
        · have := hpg (l.length / 2) j hi hj hgt
          subst hblk; omega

/-- find returns the member block containing the address. -/
theorem findGo_mem (l : List Block) (addr : Nat)
    (hp : l.Pairwise (fun a b => a.e < b.s)) (hwf : ∀ b ∈ l, b.s ≤ b.e)
    (blk : Block) (hmem : blk ∈ l) (hc : blk.containsB addr) :
    findGo l addr = some blk :=
  findGoF_mem l.length l addr le_rfl hp hwf blk hmem hc

/-- On a sorted sequence, `find`'s bisection misses when no block contains
the address. -/
theorem findGoF_none (fuel : Nat) (l : List Block) (addr : Nat)
    (hp : l.Pairwise (fun a b => a.e < b.s))
    (hnone : ∀ b ∈ l, ¬ b.containsB addr) :
    findGoF fuel l addr = none := by
  induction fuel generalizing l with
  | zero => rfl
  | succ fuel ih =>
    rw [findGoF]
    by_cases hlen : l.length = 0
    · simp [hlen]
    · simp only [hlen, if_neg, not_false_iff]
      have hi : l.length / 2 < l.length := by omega
      rw [List.getD_eq_getElem l default hi]
      have hnc := hnone l[l.length / 2] (List.getElem_mem hi)
      unfold Block.containsB at hnc
      push_neg at hnc
      by_cases h1 : addr < l[l.length / 2].s
      · rw [if_pos h1]
        exact ih _ (hp.sublist (List.take_sublist _ _))
          (fun b hb => hnone b (List.mem_of_mem_take hb))
      · rw [if_neg h1]
        push_neg at h1
        by_cases h2 : l[l.length / 2].e < addr
        · rw [if_pos h2]
          exact ih _ (hp.sublist (List.drop_sublist _ _))
            (fun b hb => hnone b (List.mem_of_mem_drop hb))
        · push_neg at h2
          exact absurd h1 (by have := hnc h2; omega)

/-- find misses when no block contains the address. -/
theorem findGo_none (l : List Block) (addr : Nat)
    (hp : l.Pairwise (fun a b => a.e < b.s))
    (hnone : ∀ b ∈ l, ¬ b.containsB addr) :
    findGo l addr = none :=
  findGoF_none l.length l addr hp hnone

theorem containsO_some (pb : Block) (addr : Nat) :
    containsO (some pb) addr ↔ pb.containsB addr := Iff.rfl

/-- The two routing entry points share one body. -/
theorem rwBlock_eq_memoryB (bus : Bus) (addr : Nat) :
    bus.rwBlock addr = bus.memoryB addr := rfl

theorem wf_sorted {bus : Bus} (h : bus.wf) :
    bus.b.Pairwise (fun a b => a.e < b.s) := h.1

theorem wf_blk {bus : Bus} (h : bus.wf) {blk : Block} (hmem : blk ∈ bus.blocks) :
    bus.wfBlk blk := h.2.1 blk hmem

theorem mem_blocks_of_mem_b {bus : Bus} {blk : Block} (hmem : blk ∈ bus.b) :
    blk ∈ bus.blocks := List.mem_append_right _ hmem

theorem mem_blocks_of_p {bus : Bus} {blk : Block} (hp : bus.p = some blk) :
    blk ∈ bus.blocks := by
  unfold Bus.blocks
  rw [hp]
  exact List.mem_append_left _ (by simp)

/-- Resolution through `memory` finds the routed block containing the
address. -/
theorem memoryB_of_mem (bus : Bus) (h : bus.wf) (blk : Block)
    (hmem : blk ∈ bus.blocks) (addr : Nat) (hc : blk.containsB addr) :
    bus.memoryB addr = blk := by
  unfold Bus.memoryB
  rcases List.mem_append.mp hmem with hpm | hbm
  · have hp : bus.p = some blk := by
      cases hpb : bus.p with
      | none => rw [hpb] at hpm; simp at hpm
      | some pb => rw [hpb] at hpm; simp at hpm; rw [hpm]
    rw [hp]
    rw [if_pos ((containsO_some blk addr).mpr hc)]
    rfl
  · have hnp : ¬ containsO bus.p addr := by
      cases hpb : bus.p with
      | none => simp [containsO]
      | some pb =>
        rw [containsO_some]
        intro hcp
        have hdis := h.2.2.1 pb (by simp [hpb]) blk hbm
        obtain ⟨h1, h2⟩ := hc
        obtain ⟨h3, h4⟩ := hcp
        omega
    rw [if_neg hnp]
    unfold Bus.findB
    rw [findGo_mem bus.b addr (wf_sorted h)
      (fun b hb => (wf_blk h (mem_blocks_of_mem_b hb)).1) blk hbm hc]
    rfl

/-- Resolution through `memory` falls to the nilMemory sentinel on an
unmapped address. -/
theorem memoryB_unmapped (bus : Bus) (h : bus.wf) (addr : Nat)
    (hu : ¬ bus.mapped addr) :
    bus.memoryB addr = nilMemory := by
  unfold Bus.memoryB
  have hnb : ∀ b ∈ bus.b, ¬ b.containsB addr := fun b hb hc =>
    hu ⟨b, mem_blocks_of_mem_b hb, hc⟩
  have hnp : ¬ containsO bus.p addr := by
    cases hpb : bus.p with
    | none => simp [containsO]
    | some pb =>
      rw [containsO_some]
      exact fun hc => hu ⟨pb, mem_blocks_of_p hpb, hc⟩
  rw [if_neg hnp]
  unfold Bus.findB
  rw [findGo_none bus.b addr (wf_sorted h) hnb]
  rfl

/-! Concrete buses used by witnesses and counterexamples, all built by
`Map` calls from the zero-value bus. -/

/-- A 16-byte little-endian RAM region of zeroes. -/
def ram16 : Region := .le (List.replicate 16 0)

/-- A bus with a single mapped block: the first `Map` call on a virgin bus
parks the block in the preferred slot and the sequence stays empty. -/
def busOne : Bus := (Bus.empty.Map 0x100 ram16).2

/-- Four blocks: the first Map call becomes the preferred block (at 0x300)
and the sequence holds the blocks at 0, 0x100 and 0x200. -/
def bus3 : Bus :=
  ((((Bus.empty.Map 0x300 ram16).2.Map 0 ram16).2.Map 0x100 ram16).2.Map 0x200 ram16).2

/-- Two immediately contiguous 16-byte blocks at 0x100 and 0x110: the
streaming writer can cross from the first into the second, while address
0x120 is unmapped. -/
def bus2c : Bus := ((Bus.empty.Map 0x100 ram16).2.Map 0x110 ram16).2

/-- C1 (amended): when the non-preferred sequence is nonempty, Memory maps
every address of a routed block (preferred included) to that block's start
and region, and resolves unmapped addresses to the void region with base
2^64 - 1 (the sentinel's start), not 0; when the sequence is empty, Memory
returns (0, void) for every address — including addresses inside the
preferred block. -/
theorem c1_memory_routing (bus : Bus) (h : bus.wf) (addr : Nat) :
    (bus.b ≠ [] → ∀ blk ∈ bus.blocks, ∀ o, o < (bus.reg blk.m).size →
      bus.Memory (blk.s + o) = (blk.s, blk.m)) ∧
    (bus.b ≠ [] → ¬ bus.mapped addr →
      bus.Memory addr = (AddrSize - 1, 0) ∧ bus.reg 0 = .noMem) ∧
    (bus.b = [] → bus.Memory addr = (0, 0) ∧ bus.reg 0 = .noMem) := by
  refine ⟨?_, ?_, ?_⟩
  · intro hne blk hmem o ho
    have hlen : bus.b.length ≠ 0 := fun h0 => hne (List.length_eq_zero.mp h0)
    obtain ⟨hse, _, _, hsz, _, _⟩ := wf_blk h hmem
    rw [hsz] at ho
    have hc : blk.containsB (blk.s + o) := ⟨by omega, by omega⟩
    unfold Bus.Memory
    rw [if_neg hlen, memoryB_of_mem bus h blk hmem _ hc]
  · intro hne hu
    have hlen : bus.b.length ≠ 0 := fun h0 => hne (List.length_eq_zero.mp h0)
    refine ⟨?_, h.2.2.2.2⟩
    unfold Bus.Memory
    rw [if_neg hlen, memoryB_unmapped bus h addr hu]
    rfl
  · intro he
    have hlen : bus.b.length = 0 := by rw [he]; rfl
    exact ⟨by unfold Bus.Memory; rw [if_pos hlen]; rfl, h.2.2.2.2⟩

/-- C1 counterexample: on a bus whose only block sits in the preferred
slot, `Memory` of an address inside that mapped block returns
`(0, void)`, not `(block start, block region)` as the claim states. -/
theorem c1_counterexample :
    busOne.p = some ⟨0x100, 0x10F, 1⟩ ∧
    (Block.mk 0x100 0x10F 1).containsB 0x100 ∧
    (busOne.reg 1).size = 16 ∧
    busOne.Memory 0x100 = (0, 0) ∧
    busOne.reg 0 = .noMem ∧
    busOne.Memory 0x100 ≠ (0x100, 1) := by decide

/-- Witness for the amended C1 on a concrete four-block bus: routing to a
sequence block, to the preferred block, and the sentinel answer for an
unmapped address. -/
theorem c1_memory_routing_witness :
    bus3.wf ∧ bus3.Memory (0x200 + 5) = (0x200, 4) ∧
    bus3.Memory (0x300 + 5) = (0x300, 1) ∧
    bus3.Memory 0x500 = (AddrSize - 1, 0) := by
  have hwf : bus3.wf := by decide
  refine ⟨hwf, ?_, ?_, ?_⟩
  · exact (c1_memory_routing bus3 hwf 0).1 (by decide) ⟨0x200, 0x20F, 4⟩ (by decide) 5 (by decide)
  · exact (c1_memory_routing bus3 hwf 0).1 (by decide) ⟨0x300, 0x30F, 1⟩ (by decide) 5 (by decide)
  · exact ((c1_memory_routing bus3 hwf 0x500).2.1 (by decide) (by decide)).1

/-- The error component of a sized bus write result. -/
def writeErr : GoRes (Option Err × Bus) → Option (Option Err)
  | .oob => none
  | .ok (e, _) => some e

theorem AddrSize_pos : 0 < AddrSize := by unfold AddrSize; positivity

/-- The offset handed to the void region: `addr - nilMemory.s` wraps to
`addr + 1 (mod 2^64)`. -/
theorem offIn_nilMemory (addr : Nat) :
    offIn addr nilMemory.s = (addr + 1) % AddrSize := by
  have hA := AddrSize_pos
  show (addr + AddrSize - (AddrSize - 1)) % AddrSize = (addr + 1) % AddrSize
  exact congrArg (fun t => t % AddrSize) (by omega)

theorem rwBlock_unmapped (bus : Bus) (h : bus.wf) (addr : Nat)
    (hu : ¬ bus.mapped addr) : bus.rwBlock addr = nilMemory := by
  rw [rwBlock_eq_memoryB]
  exact memoryB_unmapped bus h addr hu

set_option maxRecDepth 8000 in
/-- C7 (amended): a sized access to an unmapped address routes to the
nilMemory sentinel; every read returns 0 with an ErrBus of the access op
and width, every write returns such an ErrBus — but the address the error
records is `addr - nilMemory.s = addr + 1 (mod 2^64)`, the offset
relative to the sentinel block, not `addr` itself. -/
theorem c7_unmapped_buserror (bus : Bus) (h : bus.wf) (addr : Nat)
    (hu : ¬ bus.mapped addr) (v : Nat) :
    bus.Read8 addr = .ok (0, some (.bus ⟨.read, 1, (addr + 1) % AddrSize⟩)) ∧
    bus.Read16 addr = .ok (0, some (.bus ⟨.read, 2, (addr + 1) % AddrSize⟩)) ∧
    bus.Read32 addr = .ok (0, some (.bus ⟨.read, 4, (addr + 1) % AddrSize⟩)) ∧
    bus.Read64 addr = .ok (0, some (.bus ⟨.read, 8, (addr + 1) % AddrSize⟩)) ∧
    writeErr (bus.Write8 addr v) = some (some (.bus ⟨.write, 1, (addr + 1) % AddrSize⟩)) ∧
    writeErr (bus.Write16 addr v) = some (some (.bus ⟨.write, 2, (addr + 1) % AddrSize⟩)) ∧
    writeErr (bus.Write32 addr v) = some (some (.bus ⟨.write, 4, (addr + 1) % AddrSize⟩)) ∧
    writeErr (bus.Write64 addr v) = some (some (.bus ⟨.write, 8, (addr + 1) % AddrSize⟩)) := by
  have hblk := rwBlock_unmapped bus h addr hu
  have hreg : bus.reg nilMemory.m = .noMem := h.2.2.2.2
  refine ⟨?_, ?_, ?_, ?_, ?_, ?_, ?_, ?_⟩ <;>
    simp [Bus.Read8, Bus.Read16, Bus.Read32, Bus.Read64,
      Bus.Write8, Bus.Write16, Bus.Write32, Bus.Write64, hblk, hreg,
      offIn_nilMemory, Region.Read8, Region.Read16, Region.Read32, Region.Read64,
      Region.Write8, Region.Write16, Region.Write32, Region.Write64, writeErr]

/-- C7 counterexample: on the zero-value bus the address 5 is unmapped,
and Read8(5) records address 6 in the bus error, not 5 as the claim
states. -/
theorem c7_counterexample :
    ¬ Bus.empty.mapped 5 ∧
    Bus.empty.Read8 5 = .ok (0, some (.bus ⟨.read, 1, 6⟩)) ∧
    (6 : Nat) ≠ 5 := by decide

/-- Witness for the amended C7 at the four-block bus and unmapped address
0x500. -/
theorem c7_unmapped_buserror_witness :
    bus3.wf ∧ ¬ bus3.mapped 0x500 ∧
    bus3.Read16 0x500 = .ok (0, some (.bus ⟨.read, 2, 0x501⟩)) := by
  have hwf : bus3.wf := by decide
  have hu : ¬ bus3.mapped 0x500 := by decide
  refine ⟨hwf, hu, ?_⟩
  have h := (c7_unmapped_buserror bus3 hwf 0x500 hu 0).2.1
  simpa using h

/-- C10: the sized writes leave the routing state — the block sequence
and the preferred slot — unchanged; only the region storage behind the
resolved block's region id is touched.  (The sized reads are pure in this
embedding because their Go bodies contain no assignment to `b.b` or
`b.p`: resolution through `find` performs no promotion and no caching.) -/
theorem c10_sized_access_frame (bus : Bus) (addr v : Nat) :
    (∀ e bus', bus.Write8 addr v = .ok (e, bus') → bus'.b = bus.b ∧ bus'.p = bus.p) ∧
    (∀ e bus', bus.Write16 addr v = .ok (e, bus') → bus'.b = bus.b ∧ bus'.p = bus.p) ∧
    (∀ e bus', bus.Write32 addr v = .ok (e, bus') → bus'.b = bus.b ∧ bus'.p = bus.p) ∧
    (∀ e bus', bus.Write64 addr v = .ok (e, bus') → bus'.b = bus.b ∧ bus'.p = bus.p) := by
  refine ⟨?_, ?_, ?_, ?_⟩ <;> intro e bus' h
  · unfold Bus.Write8 at h
    cases hm : (bus.reg (bus.rwBlock addr).m).Write8 (offIn addr (bus.rwBlock addr).s) v with
    | oob => rw [hm] at h; cases h
    | ok pr => obtain ⟨e', r'⟩ := pr; rw [hm] at h; cases h; exact ⟨rfl, rfl⟩
  · unfold Bus.Write16 at h
    cases hm : (bus.reg (bus.rwBlock addr).m).Write16 (offIn addr (bus.rwBlock addr).s) v with
    | oob => rw [hm] at h; cases h
    | ok pr => obtain ⟨e', r'⟩ := pr; rw [hm] at h; cases h; exact ⟨rfl, rfl⟩
  · unfold Bus.Write32 at h
    cases hm : (bus.reg (bus.rwBlock addr).m).Write32 (offIn addr (bus.rwBlock addr).s) v with
    | oob => rw [hm] at h; cases h
    | ok pr => obtain ⟨e', r'⟩ := pr; rw [hm] at h; cases h; exact ⟨rfl, rfl⟩
  · unfold Bus.Write64 at h
    cases hm : (bus.reg (bus.rwBlock addr).m).Write64 (offIn addr (bus.rwBlock addr).s) v with
    | oob => rw [hm] at h; cases h
    | ok pr => obtain ⟨e', r'⟩ := pr; rw [hm] at h; cases h; exact ⟨rfl, rfl⟩

/-- Witness for C10 at a concrete in-bounds write on the one-block bus. -/
theorem c10_sized_access_frame_witness :
    ({ busOne with store := [.noMem, .le ((List.replicate 16 0).set 5 7)] } : Bus).b = busOne.b ∧
    ({ busOne with store := [.noMem, .le ((List.replicate 16 0).set 5 7)] } : Bus).p = busOne.p := by
  refine (c10_sized_access_frame busOne 0x105 7).1 none _ ?_
  decide

/-- C2 (code evaluation at the failing input): on the four-block bus,
`Preferred(0x200)` promotes the block at 0x0 — findIdx's bisection
returns the probe index of the narrowed sub-slice (0) instead of the
absolute index of the hit (2) — so the installed preferred block does not
contain 0x200, although a sequence block containing 0x200 exists. -/
theorem c2_preferred_wrong_block :
    bus3.wf ∧
    (⟨0x200, 0x20F, 4⟩ : Block) ∈ bus3.b ∧
    (Block.mk 0x200 0x20F 4).containsB 0x200 ∧
    bus3.findIdxB 0x200 = 0 ∧
    (bus3.Preferred 0x200).p = some ⟨0, 0xF, 2⟩ ∧
    ¬ (Block.mk 0 0xF 2).containsB 0x200 := by decide

/-- C4 (code evaluation at the failing input): when the address lies in
the preferred block, Remap returns nil without touching the bus, so the
block's region is not replaced (its size stays 16 instead of 32). -/
theorem c4_remap_preferred_noop :
    busOne.p = some ⟨0x100, 0x10F, 1⟩ ∧
    (Block.mk 0x100 0x10F 1).containsB 0x100 ∧
    busOne.Remap 0x100 (.le (List.replicate 32 0)) = (none, busOne) ∧
    (busOne.reg 1).size = 16 := by decide

/-- The reset-state ZPU (pc = 0, sp = 0). -/
def zpuZero : ZState := ⟨0, 0, false, false⟩

/-- A bus whose RAM at 0 holds a nop opcode followed by a breakpoint. -/
def busZ : Bus := (Bus.empty.Map 0 (.be ([0x0B, 0x00] ++ List.replicate 14 0))).2

/-- C9 (code evaluation): a fetch from an unmapped address makes Step
panic out without returning a cycle count, while a breakpoint opcode
makes Step return early with the partial count (here 1: the nop was
executed, the breakpoint itself is not counted). -/
theorem c9_step_eval :
    zpuZero.Step Bus.empty 1 = .panicked ∧
    zpuZero.Step busZ 5 = .done 1 ⟨1, 0, false, false⟩ busZ := by decide

/-- C5 (amended): for either endianness and any width W in {8,16,32,64},
an access at an offset `o ≤ size` with `o + W/8 > size` returns errPage —
reads yield (0, PageError), writes yield PageError and leave the byte
buffer unchanged.  (For `o > size` the Go methods do not return PageError:
the slice expression `(*m)[o:]` panics; see the counterexample.) -/
theorem c5_ram_pageerror (d : List Nat) (o v : Nat) (hle : o ≤ d.length) :
    (o + 1 > d.length →
      Region.Read8 (.le d) o = .ok (0, some .page) ∧
      Region.Read8 (.be d) o = .ok (0, some .page) ∧
      Region.Write8 (.le d) o v = .ok (some .page, .le d) ∧
      Region.Write8 (.be d) o v = .ok (some .page, .be d)) ∧
    (o + 2 > d.length →
      Region.Read16 (.le d) o = .ok (0, some .page) ∧
      Region.Read16 (.be d) o = .ok (0, some .page) ∧
      Region.Write16 (.le d) o v = .ok (some .page, .le d) ∧
      Region.Write16 (.be d) o v = .ok (some .page, .be d)) ∧
    (o + 4 > d.length →
      Region.Read32 (.le d) o = .ok (0, some .page) ∧
      Region.Read32 (.be d) o = .ok (0, some .page) ∧
      Region.Write32 (.le d) o v = .ok (some .page, .le d) ∧
      Region.Write32 (.be d) o v = .ok (some .page, .be d)) ∧
    (o + 8 > d.length →
      Region.Read64 (.le d) o = .ok (0, some .page) ∧
      Region.Read64 (.be d) o = .ok (0, some .page) ∧
      Region.Write64 (.le d) o v = .ok (some .page, .le d) ∧
      Region.Write64 (.be d) o v = .ok (some .page, .be d)) := by
  have h1 : ¬ (d.length < o) := by omega
  refine ⟨fun hk => ?_, fun hk => ?_, fun hk => ?_, fun hk => ?_⟩
  · have h2 : d.length - o < 1 := by omega
    simp [Region.Read8, Region.Write8, ramRead8, ramWrite8, h1, h2]
  · have h2 : d.length - o < 2 := by omega
    simp [Region.Read16, Region.Write16, ramReadW, ramWriteW, h1, h2]
  · have h2 : d.length - o < 4 := by omega
    simp [Region.Read32, Region.Write32, ramReadW, ramWriteW, h1, h2]
  · have h2 : d.length - o < 8 := by omega
    simp [Region.Read64, Region.Write64, ramReadW, ramWriteW, h1, h2]

/-- C5 counterexample: for a 2-byte RAM and offset 3 (so o > size and
o + 1 > size: the claim's hypothesis holds) the access is the Go
run-time panic of the slice expression, not a PageError. -/
theorem c5_counterexample :
    ([0, 0] : List Nat).length < 3 ∧
    Region.Read8 (.le [0, 0]) 3 = .oob ∧
    Region.Read8 (.le [0, 0]) 3 ≠ .ok (0, some .page) ∧
    Region.Write8 (.be [0, 0]) 3 5 = .oob := by decide

/-- Witness for the amended C5: 2-byte RAM, offset 1, 16-bit access. -/
theorem c5_ram_pageerror_witness :
    (1 ≤ ([0, 0] : List Nat).length ∧ 1 + 2 > ([0, 0] : List Nat).length) ∧
    Region.Read16 (.le [0, 0]) 1 = .ok (0, some .page) ∧
    Region.Write16 (.be [0, 0]) 1 7 = .ok (some .page, .be [0, 0]) := by
  refine ⟨⟨by decide, by decide⟩, ?_, ?_⟩
  · exact ((c5_ram_pageerror [0, 0] 1 7 (by decide)).2.1 (by decide)).1
  · exact ((c5_ram_pageerror [0, 0] 1 7 (by decide)).2.1 (by decide)).2.2.2

/-! Scenario S1: a little-endian RAM of 8192 bytes mapped at 0x1000. -/

/-- The 8192-byte backing buffer. -/
def d8192 : List Nat := List.replicate 8192 0

/-- The 64-bit value written in scenario S1. -/
def vS1 : Nat := 0xBADC0FEEDEADBEEF

/-- The S1 bus: LE RAM of size 8192 mapped at 0x1000. -/
def busS1 : Bus := (Bus.empty.Map 0x1000 (.le d8192)).2

/-- The S1 bus after the 64-bit write at 0x1000. -/
def busS1w : Bus := ⟨[], some ⟨0x1000, 0x2FFF, 1⟩, [.noMem, .le (lePut64 d8192 0 vS1)]⟩

theorem d8192_length : d8192.length = 8192 := by
  unfold d8192; rw [List.length_replicate]

/-- The single S1 block lands in the preferred slot. -/
theorem busS1_eq : busS1 = ⟨[], some ⟨0x1000, 0x2FFF, 1⟩, [.noMem, .le d8192]⟩ := by
  unfold busS1 Bus.Map
  rw [show (Region.le d8192).size = 8192 from d8192_length]
  norm_num [Bus.empty, Bus.insertB, AddrSize]

/-- C6: after an in-bounds write of width W, the W/8 bytes read back one
by one are the bytes of the value in the region's declared byte order
(`leByte v k` is the k-th little-endian byte of v); and in particular the
S1 scenario through the bus: after Write64(0x1000, 0xBADC0FEEDEADBEEF) on
the LE RAM of size 8192 mapped at 0x1000, Read8(0x1000) = 0xEF,
Read16(0x1006) = 0xBADC and Read32(0x1001) = 0xEEDEADBE. -/
theorem c6_byte_layout (d : List Nat) (o v : Nat) :
    (o + 2 ≤ d.length →
      Region.Write16 (.le d) o v = .ok (none, .le (lePut16 d o v)) ∧
      Region.Read8 (.le (lePut16 d o v)) o = .ok (leByte v 0, none) ∧
      Region.Read8 (.le (lePut16 d o v)) (o + 1) = .ok (leByte v 1, none) ∧
      Region.Write16 (.be d) o v = .ok (none, .be (bePut16 d o v)) ∧
      Region.Read8 (.be (bePut16 d o v)) o = .ok (leByte v 1, none) ∧
      Region.Read8 (.be (bePut16 d o v)) (o + 1) = .ok (leByte v 0, none)) ∧
    (o + 4 ≤ d.length →
      Region.Write32 (.le d) o v = .ok (none, .le (lePut32 d o v)) ∧
      Region.Read8 (.le (lePut32 d o v)) o = .ok (leByte v 0, none) ∧
      Region.Read8 (.le (lePut32 d o v)) (o + 1) = .ok (leByte v 1, none) ∧
      Region.Read8 (.le (lePut32 d o v)) (o + 2) = .ok (leByte v 2, none) ∧
      Region.Read8 (.le (lePut32 d o v)) (o + 3) = .ok (leByte v 3, none) ∧
      Region.Write32 (.be d) o v = .ok (none, .be (bePut32 d o v)) ∧
      Region.Read8 (.be (bePut32 d o v)) o = .ok (leByte v 3, none) ∧
      Region.Read8 (.be (bePut32 d o v)) (o + 1) = .ok (leByte v 2, none) ∧
      Region.Read8 (.be (bePut32 d o v)) (o + 2) = .ok (leByte v 1, none) ∧
      Region.Read8 (.be (bePut32 d o v)) (o + 3) = .ok (leByte v 0, none)) ∧
    (o + 8 ≤ d.length →
      Region.Write64 (.le d) o v = .ok (none, .le (lePut64 d o v)) ∧
      Region.Read8 (.le (lePut64 d o v)) o = .ok (leByte v 0, none) ∧
      Region.Read8 (.le (lePut64 d o v)) (o + 1) = .ok (leByte v 1, none) ∧
      Region.Read8 (.le (lePut64 d o v)) (o + 2) = .ok (leByte v 2, none) ∧
      Region.Read8 (.le (lePut64 d o v)) (o + 3) = .ok (leByte v 3, none) ∧
      Region.Read8 (.le (lePut64 d o v)) (o + 4) = .ok (leByte v 4, none) ∧
      Region.Read8 (.le (lePut64 d o v)) (o + 5) = .ok (leByte v 5, none) ∧
      Region.Read8 (.le (lePut64 d o v)) (o + 6) = .ok (leByte v 6, none) ∧
      Region.Read8 (.le (lePut64 d o v)) (o + 7) = .ok (leByte v 7, none) ∧
      Region.Write64 (.be d) o v = .ok (none, .be (bePut64 d o v)) ∧
      Region.Read8 (.be (bePut64 d o v)) o = .ok (leByte v 7, none) ∧
      Region.Read8 (.be (bePut64 d o v)) (o + 1) = .ok (leByte v 6, none) ∧
      Region.Read8 (.be (bePut64 d o v)) (o + 2) = .ok (leByte v 5, none) ∧
      Region.Read8 (.be (bePut64 d o v)) (o + 3) = .ok (leByte v 4, none) ∧
      Region.Read8 (.be (bePut64 d o v)) (o + 4) = .ok (leByte v 3, none) ∧
      Region.Read8 (.be (bePut64 d o v)) (o + 5) = .ok (leByte v 2, none) ∧
      Region.Read8 (.be (bePut64 d o v)) (o + 6) = .ok (leByte v 1, none) ∧
      Region.Read8 (.be (bePut64 d o v)) (o + 7) = .ok (leByte v 0, none)) ∧
    (busS1.Write64 0x1000 vS1 = .ok (none, busS1w) ∧
      busS1w.Read8 0x1000 = .ok (0xEF, none) ∧
      busS1w.Read16 0x1006 = .ok (0xBADC, none) ∧
      busS1w.Read32 0x1001 = .ok (0xEEDEADBE, none)) := by
  refine ⟨fun hk => ?_, fun hk => ?_, fun hk => ?_, ?_, ?_, ?_, ?_⟩
  · have hA : ¬ (d.length < o) := by omega
    have hB : ¬ (d.length - o < 2) := by omega
    have hP0 : o < d.length := by omega
    have hL0 : ¬ (d.length < o) := by omega
    have hZ0 : ¬ (d.length - o = 0) := by omega
    have hP1 : o + 1 < d.length := by omega
    have hL1 : ¬ (d.length < o + 1) := by omega
    have hZ1 : ¬ (d.length - (o + 1) = 0) := by omega
    refine ⟨?_, ?_, ?_, ?_, ?_, ?_⟩ <;>
      simp [Region.Write16, Region.Read8, ramWriteW, ramRead8, lePut16, bePut16,
        List.getD_eq_getElem, List.getElem?_eq_getElem, List.getElem_set, List.length_set,
        hA, hB, hP0, hL0, hZ0, hP1, hL1, hZ1]
  · have hA : ¬ (d.length < o) := by omega
    have hB : ¬ (d.length - o < 4) := by omega
    have hP0 : o < d.length := by omega
    have hL0 : ¬ (d.length < o) := by omega
    have hZ0 : ¬ (d.length - o = 0) := by omega
    have hP1 : o + 1 < d.length := by omega
    have hL1 : ¬ (d.length < o + 1) := by omega
    have hZ1 : ¬ (d.length - (o + 1) = 0) := by omega
    have hP2 : o + 2 < d.length := by omega
    have hL2 : ¬ (d.length < o + 2) := by omega
    have hZ2 : ¬ (d.length - (o + 2) = 0) := by omega
    have hP3 : o + 3 < d.length := by omega
    have hL3 : ¬ (d.length < o + 3) := by omega
    have hZ3 : ¬ (d.length - (o + 3) = 0) := by omega
    refine ⟨?_, ?_, ?_, ?_, ?_, ?_, ?_, ?_, ?_, ?_⟩ <;>
      simp [Region.Write32, Region.Read8, ramWriteW, ramRead8, lePut32, bePut32,
        List.getD_eq_getElem, List.getElem?_eq_getElem, List.getElem_set, List.length_set,
        hA, hB, hP0, hL0, hZ0, hP1, hL1, hZ1, hP2, hL2, hZ2, hP3, hL3, hZ3]
  · have hA : ¬ (d.length < o) := by omega
    have hB : ¬ (d.length - o < 8) := by omega
    have hP0 : o < d.length := by omega
    have hL0 : ¬ (d.length < o) := by omega
    have hZ0 : ¬ (d.length - o = 0) := by omega
    have hP1 : o + 1 < d.length := by omega
    have hL1 : ¬ (d.length < o + 1) := by omega
    have hZ1 : ¬ (d.length - (o + 1) = 0) := by omega
    have hP2 : o + 2 < d.length := by omega
    have hL2 : ¬ (d.length < o + 2) := by omega
    have hZ2 : ¬ (d.length - (o + 2) = 0) := by omega
    have hP3 : o + 3 < d.length := by omega
    have hL3 : ¬ (d.length < o + 3) := by omega
    have hZ3 : ¬ (d.length - (o + 3) = 0) := by omega
    have hP4 : o + 4 < d.length := by omega
    have hL4 : ¬ (d.length < o + 4) := by omega
    have hZ4 : ¬ (d.length - (o + 4) = 0) := by omega
    have hP5 : o + 5 < d.length := by omega
    have hL5 : ¬ (d.length < o + 5) := by omega
    have hZ5 : ¬ (d.length - (o + 5) = 0) := by omega
    have hP6 : o + 6 < d.length := by omega
    have hL6 : ¬ (d.length < o + 6) := by omega
    have hZ6 : ¬ (d.length - (o + 6) = 0) := by omega
    have hP7 : o + 7 < d.length := by omega
    have hL7 : ¬ (d.length < o + 7) := by omega
    have hZ7 : ¬ (d.length - (o + 7) = 0) := by omega
    refine ⟨?_, ?_, ?_, ?_, ?_, ?_, ?_, ?_, ?_, ?_, ?_, ?_, ?_, ?_, ?_, ?_, ?_, ?_⟩ <;>
      simp [Region.Write64, Region.Read8, ramWriteW, ramRead8, lePut64, bePut64,
        List.getD_eq_getElem, List.getElem?_eq_getElem, List.getElem_set, List.length_set,
        hA, hB, hP0, hL0, hZ0, hP1, hL1, hZ1, hP2, hL2, hZ2, hP3, hL3, hZ3, hP4, hL4, hZ4, hP5, hL5, hZ5, hP6, hL6, hZ6, hP7, hL7, hZ7]
  · rw [busS1_eq]
    norm_num [Bus.Write64, Bus.rwBlock, containsO, Bus.reg, offIn, AddrSize,
      Region.Write64, ramWriteW, d8192_length, busS1w]
  · norm_num [busS1w, Bus.Read8, Bus.rwBlock, containsO, Bus.reg, offIn, AddrSize,
      ramRead8, lePut64,
      List.getD_eq_getElem, List.getElem_set, List.length_set, leByte, vS1, d8192_length,
      Region.Read8]
  · norm_num [busS1w, Bus.Read16, Bus.rwBlock, containsO, Bus.reg, offIn, AddrSize,
      Region.Read16, ramReadW, d8192_length, lePut64, leUint16,
      List.getD_eq_getElem, List.getElem_set, List.length_set, leByte, vS1]
  · norm_num [busS1w, Bus.Read32, Bus.rwBlock, containsO, Bus.reg, offIn, AddrSize,
      Region.Read32, ramReadW, d8192_length, lePut64, leUint32,
      List.getD_eq_getElem, List.getElem_set, List.length_set, leByte, vS1]

/-- Witness for C6's quantified part at a 2-byte buffer and v = 0xBEEF. -/
theorem c6_byte_layout_witness :
    Region.Read8 (.le (lePut16 [0, 0] 0 0xBEEF)) 0 = .ok (leByte 0xBEEF 0, none) ∧
    Region.Read8 (.be (bePut16 [0, 0] 0 0xBEEF)) 0 = .ok (leByte 0xBEEF 1, none) := by
  have h := (c6_byte_layout [0, 0] 0 0xBEEF).1 (by decide)
  exact ⟨h.2.1, h.2.2.2.2.1⟩

/-- The bisection of insertIdx on a sorted window: it reports -1 exactly
when the candidate overlaps some block of the window, and a non-negative
insertion point otherwise. -/
theorem insertIdxF_spec (bs : List Block) (blk : Block)
    (hps : ∀ i j, i < j → j < bs.length →
      (bs.getD i default).e < (bs.getD j default).s)
    (hwfE : ∀ b ∈ bs, b.s ≤ b.e) (hblk : blk.s ≤ blk.e) :
    ∀ fuel l h, h ≤ bs.length → h - l ≤ fuel →
      ((insertIdxF bs blk fuel l h = -1 →
          ∃ j, l ≤ j ∧ j < h ∧ blk.overlapsB (bs.getD j default)) ∧
        (insertIdxF bs blk fuel l h ≠ -1 →
          0 ≤ insertIdxF bs blk fuel l h ∧
            ∀ j, l ≤ j → j < h → ¬ blk.overlapsB (bs.getD j default))) := by
  intro fuel
  induction fuel with
  | zero =>
    intro l h hh hf
    rw [insertIdxF]
    refine ⟨fun hm1 => absurd hm1 (by omega), fun _ => ⟨by omega, fun j hlj hjh => ?_⟩⟩
    omega
  | succ fuel ih =>
    intro l h hh hf
    rw [insertIdxF]
    by_cases hle : h ≤ l
    · rw [if_pos hle]
      refine ⟨fun hm1 => absurd hm1 (by omega), fun _ => ⟨by omega, fun j hlj hjh => ?_⟩⟩
      omega
    · rw [if_neg hle]
      push_neg at hle
      set i := l + (h - l) / 2 with hi
      have hilt : i < h := by omega
      have hige : l ≤ i := by omega
      have hiln : i < bs.length := by omega
      have hie := hwfE (bs.getD i default)
        (by rw [List.getD_eq_getElem bs default hiln]; exact List.getElem_mem hiln)
      by_cases hov : blk.overlapsB (bs.getD i default)
      · rw [if_pos hov]
        exact ⟨fun _ => ⟨i, hige, hilt, hov⟩, fun hne => absurd rfl hne⟩
      · rw [if_neg hov]
        unfold Block.overlapsB at hov
        push_neg at hov
        by_cases hsl : blk.s < (bs.getD i default).s
        · rw [if_pos hsl]
          -- no overlap and probe start strictly right of candidate start:
          -- the probe and everything right of it lie beyond blk.e
          have hre : blk.e < (bs.getD i default).s := hov.1 (Nat.le_of_lt hsl)
          have hright : ∀ j, i ≤ j → j < h → ¬ blk.overlapsB (bs.getD j default) := by
            intro j hij hjh
            have hjlt : j < bs.length := by omega
            have hjs : blk.e < (bs.getD j default).s := by
              rcases Nat.eq_or_lt_of_le hij with heq | hlt
              · rw [← heq]; exact hre
              · have := hps i j hlt hjlt
                omega
            intro hco
            unfold Block.overlapsB at hco
            rcases hco with ⟨_, h2⟩ | ⟨h1, _⟩
            · omega
            · have := hwfE (bs.getD j default)
                (by rw [List.getD_eq_getElem bs default hjlt]; exact List.getElem_mem hjlt)
              omega
          obtain ⟨hb1, hb2⟩ := ih l i (by omega) (by omega)
          refine ⟨fun hm1 => ?_, fun hne => ?_⟩
          · obtain ⟨j, hlj, hji, hovj⟩ := hb1 hm1
            exact ⟨j, hlj, by omega, hovj⟩
          · obtain ⟨hnn, hno⟩ := hb2 hne
            refine ⟨hnn, fun j hlj hjh => ?_⟩
            rcases Nat.lt_or_ge j i with hji | hij
            · exact hno j hlj hji
            · exact hright j hij hjh
        · rw [if_neg hsl]
          push_neg at hsl
          -- no overlap and probe start at or left of candidate start:
          -- the probe and everything left of it end before blk.s
          have hre : (bs.getD i default).e < blk.s := hov.2 hsl
          have hleft : ∀ j, l ≤ j → j ≤ i → ¬ blk.overlapsB (bs.getD j default) := by
            intro j hlj hji
            have hjlt : j < bs.length := by omega
            have hje : (bs.getD j default).e < blk.s := by
              rcases Nat.eq_or_lt_of_le hji with heq | hlt
              · rw [heq]; exact hre
              · have := hps j i hlt hiln
                omega
            intro hco
            unfold Block.overlapsB at hco
            have hjwf := hwfE (bs.getD j default)
              (by rw [List.getD_eq_getElem bs default hjlt]; exact List.getElem_mem hjlt)
            rcases hco with ⟨h1, _⟩ | ⟨_, h2⟩
            · omega
            · omega
          obtain ⟨hb1, hb2⟩ := ih (i + 1) h (by omega) (by omega)
          refine ⟨fun hm1 => ?_, fun hne => ?_⟩
          · obtain ⟨j, hij, hjh, hovj⟩ := hb1 hm1
            exact ⟨j, by omega, hjh, hovj⟩
          · obtain ⟨hnn, hno⟩ := hb2 hne
            refine ⟨hnn, fun j hlj hjh => ?_⟩
            rcases Nat.lt_or_ge i j with hij | hji
            · exact hno j (by omega) hjh
            · exact hleft j hlj hji

/-- Sortedness in getD form. -/
theorem sorted_getD (bs : List Block) (hp : bs.Pairwise (fun a b => a.e < b.s)) :
    ∀ i j, i < j → j < bs.length → (bs.getD i default).e < (bs.getD j default).s := by
  intro i j hij hj
  have hi : i < bs.length := by omega
  rw [List.getD_eq_getElem bs default hi, List.getD_eq_getElem bs default hj]
  exact List.pairwise_iff_getElem.mp hp i j hi hj hij

/-- The source's overlap test is exact interval intersection for
well-formed blocks. -/
theorem overlapsB_iff_intersects (x y : Block) (hx : x.s ≤ x.e) (hy : y.s ≤ y.e) :
    x.overlapsB y ↔ (y.s ≤ x.e ∧ x.s ≤ y.e) := by
  unfold Block.overlapsB; omega

/-- insertIdx over the whole sorted sequence: negative exactly when the
candidate overlaps some sequence block. -/
theorem insertIdxGo_neg_iff (bs : List Block)
    (hp : bs.Pairwise (fun a b => a.e < b.s))
    (hwfE : ∀ b ∈ bs, b.s ≤ b.e) (blk : Block) (hblk : blk.s ≤ blk.e) :
    insertIdxGo bs blk 0 bs.length < 0 ↔ ∃ bi ∈ bs, blk.overlapsB bi := by
  have hspec := insertIdxF_spec bs blk (sorted_getD bs hp) hwfE hblk
    (bs.length - 0) 0 bs.length le_rfl (by omega)
  unfold insertIdxGo
  constructor
  · intro hlt
    by_cases hm1 : insertIdxF bs blk (bs.length - 0) 0 bs.length = -1
    · obtain ⟨j, _, hjh, hov⟩ := hspec.1 hm1
      refine ⟨bs.getD j default, ?_, hov⟩
      rw [List.getD_eq_getElem bs default hjh]
      exact List.getElem_mem hjh
    · obtain ⟨hnn, _⟩ := hspec.2 hm1
      omega
  · rintro ⟨bi, hmem, hov⟩
    by_contra hge
    have hne : insertIdxF bs blk (bs.length - 0) 0 bs.length ≠ -1 := by
      intro heq; rw [heq] at hge; omega
    obtain ⟨j, hj, hbi⟩ := List.mem_iff_getElem.mp hmem
    refine (hspec.2 hne).2 j (by omega) hj ?_
    rw [List.getD_eq_getElem bs default hj, hbi]
    exact hov

/-- insert reports either success or an overlap, never anything else. -/
theorem insertB_fst (bus : Bus) (blk : Block) :
    (bus.insertB blk).1 = none ∨ (bus.insertB blk).1 = some .overlap := by
  unfold Bus.insertB
  by_cases h1 : bus.b.length = 0 ∧ bus.p = none
  · rw [if_pos h1]; left; rfl
  · rw [if_neg h1]
    by_cases h2 : (bus.p.isSome = true ∧ blk.overlapsB (bus.p.getD default)) ∨
        bus.insertIdxB blk < 0
    · rw [if_pos h2]; right; rfl
    · rw [if_neg h2]; left; rfl

/-- The overflow test `end < addr` triggers exactly when `addr + size`
passes the end of the address space. -/
theorem map_end_lt_iff (addr sz : Nat) (haddr : addr < AddrSize)
    (hsz : sz ≤ AddrSize) (hpos : 0 < sz) :
    ((addr + (sz - 1)) % AddrSize < addr ↔ AddrSize < addr + sz) := by
  have hA := AddrSize_pos
  rcases le_or_lt (addr + sz) AddrSize with hnw | hw
  · rw [Nat.mod_eq_of_lt (by omega)]
    omega
  · have h1 : (addr + (sz - 1)) % AddrSize = (addr + (sz - 1) - AddrSize) % AddrSize :=
      Nat.mod_eq_sub_mod (by omega)
    have h2 : (addr + (sz - 1) - AddrSize) % AddrSize = addr + (sz - 1) - AddrSize :=
      Nat.mod_eq_of_lt (by omega)
    rw [h1, h2]
    omega

/-- In the no-overflow path, Map's reported error is insert's. -/
theorem Map_fst_no_overflow (bus : Bus) (addr : Nat) (r : Region) (hpos : 0 < r.size)
    (hno : ¬ ((addr + (r.size - 1)) % AddrSize < addr)) :
    (bus.Map addr r).1 =
      (({ bus with store := bus.store ++ [r] } : Bus).insertB
        ⟨addr, (addr + (r.size - 1)) % AddrSize, bus.store.length⟩).1 := by
  rcases hins : ({ bus with store := bus.store ++ [r] } : Bus).insertB
    ⟨addr, (addr + (r.size - 1)) % AddrSize, bus.store.length⟩ with ⟨e, b''⟩
  unfold Bus.Map
  rw [if_neg (by omega)]
  simp only []
  rw [if_neg hno, hins]
  cases e <;> rfl

/-- Whenever Map reports an error, the returned bus is the input bus. -/
theorem Map_snd_error (bus : Bus) (addr : Nat) (r : Region) (er : MErr)
    (her : (bus.Map addr r).1 = some er) : (bus.Map addr r).2 = bus := by
  by_cases h0 : r.size = 0
  · unfold Bus.Map at her ⊢
    rw [if_pos h0] at her
    cases her
  · by_cases hov : (addr + (r.size - 1)) % AddrSize < addr
    · unfold Bus.Map at her ⊢
      rw [if_neg h0] at her ⊢
      simp only [] at her ⊢
      rw [if_pos hov] at her ⊢
    · rcases hins : ({ bus with store := bus.store ++ [r] } : Bus).insertB
        ⟨addr, (addr + (r.size - 1)) % AddrSize, bus.store.length⟩ with ⟨e, b''⟩
      unfold Bus.Map at her ⊢
      rw [if_neg h0] at her ⊢
      simp only [] at her ⊢
      rw [if_neg hov, hins] at her ⊢
      cases e with
      | none => cases her
      | some e' => rfl

/-- C3: Map of an empty region is a no-op; otherwise it fails with
OverflowError exactly when `addr + size - 1` wraps below `addr`, fails
with OverlapError exactly when the candidate range intersects an existing
mapped block (the preferred block included), and every error leaves the
bus unchanged. -/
theorem c3_map (bus : Bus) (h : bus.wf) (addr : Nat) (r : Region)
    (haddr : addr < AddrSize) (hsz : r.size ≤ AddrSize) :
    (r.size = 0 → bus.Map addr r = (none, bus)) ∧
    (0 < r.size → ((bus.Map addr r).1 = some .overflow ↔ AddrSize < addr + r.size)) ∧
    (0 < r.size → addr + r.size ≤ AddrSize →
      ((bus.Map addr r).1 = some .overlap ↔
        ∃ blk ∈ bus.blocks, blk.s ≤ addr + (r.size - 1) ∧ addr ≤ blk.e)) ∧
    (∀ er, (bus.Map addr r).1 = some er → (bus.Map addr r).2 = bus) := by
  refine ⟨fun h0 => ?_, fun hpos => ?_, fun hpos hnw => ?_, Map_snd_error bus addr r⟩
  · unfold Bus.Map
    rw [if_pos h0]
  · by_cases hov : AddrSize < addr + r.size
    · have hlt : (addr + (r.size - 1)) % AddrSize < addr :=
        (map_end_lt_iff addr r.size haddr hsz hpos).mpr hov
      unfold Bus.Map
      rw [if_neg (by omega)]
      simp only []
      rw [if_pos hlt]
      simpa using hov
    · have hno : ¬ ((addr + (r.size - 1)) % AddrSize < addr) := by
        intro hlt
        exact hov ((map_end_lt_iff addr r.size haddr hsz hpos).mp hlt)
      rw [Map_fst_no_overflow bus addr r hpos hno]
      rcases insertB_fst ({ bus with store := bus.store ++ [r] } : Bus)
          ⟨addr, (addr + (r.size - 1)) % AddrSize, bus.store.length⟩ with hf | hf <;>
        rw [hf] <;> simp [hov]
  · have hno : ¬ ((addr + (r.size - 1)) % AddrSize < addr) := by
      rw [map_end_lt_iff addr r.size haddr hsz hpos]
      omega
    have hmod : (addr + (r.size - 1)) % AddrSize = addr + (r.size - 1) :=
      Nat.mod_eq_of_lt (by omega)
    have hcwf : addr ≤ addr + (r.size - 1) := by omega
    rw [Map_fst_no_overflow bus addr r hpos hno]
    unfold Bus.insertB
    by_cases hfast : (({ bus with store := bus.store ++ [r] } : Bus).b.length = 0 ∧
        ({ bus with store := bus.store ++ [r] } : Bus).p = none)
    · rw [if_pos hfast]
      obtain ⟨hb0, hp0⟩ := hfast
      have hbe : bus.b = [] := List.length_eq_zero.mp hb0
      constructor
      · intro habs; cases habs
      · rintro ⟨blk, hmem, _⟩
        unfold Bus.blocks at hmem
        rw [hbe, hp0] at hmem
        simp at hmem
    · rw [if_neg hfast]
      have hpe : ∀ blk ∈ bus.b, blk.s ≤ blk.e :=
        fun b hb => (wf_blk h (mem_blocks_of_mem_b hb)).1
      have hiff := insertIdxGo_neg_iff bus.b (wf_sorted h) hpe
        ⟨addr, (addr + (r.size - 1)) % AddrSize, bus.store.length⟩ (by rw [hmod]; exact hcwf)
      by_cases hc : ((({ bus with store := bus.store ++ [r] } : Bus).p.isSome = true ∧
          Block.overlapsB ⟨addr, (addr + (r.size - 1)) % AddrSize, bus.store.length⟩
            (({ bus with store := bus.store ++ [r] } : Bus).p.getD default)) ∨
          ({ bus with store := bus.store ++ [r] } : Bus).insertIdxB
            ⟨addr, (addr + (r.size - 1)) % AddrSize, bus.store.length⟩ < 0)
      · rw [if_pos hc]
        simp only [true_iff, show (some MErr.overlap = some MErr.overlap) = True by simp]
        rcases hc with ⟨hps, hpov⟩ | hneg
        · cases hpb : bus.p with
          | none => rw [show ({ bus with store := bus.store ++ [r] } : Bus).p = bus.p from rfl,
              hpb] at hps; cases hps
          | some pb =>
            have hpb' : ({ bus with store := bus.store ++ [r] } : Bus).p.getD default = pb := by
              rw [show ({ bus with store := bus.store ++ [r] } : Bus).p = bus.p from rfl, hpb]
              rfl
            rw [hpb'] at hpov
            have hpwf := wf_blk h (mem_blocks_of_p hpb)
            rw [overlapsB_iff_intersects _ _ (by rw [hmod]; exact hcwf) hpwf.1] at hpov
            rw [hmod] at hpov
            exact ⟨pb, mem_blocks_of_p hpb, hpov⟩
        · have : insertIdxGo bus.b
              ⟨addr, (addr + (r.size - 1)) % AddrSize, bus.store.length⟩ 0 bus.b.length < 0 :=
            hneg
          obtain ⟨bi, hmem, hov'⟩ := hiff.mp this
          have hbwf := wf_blk h (mem_blocks_of_mem_b hmem)
          rw [overlapsB_iff_intersects _ _ (by rw [hmod]; exact hcwf) hbwf.1] at hov'
          rw [hmod] at hov'
          exact ⟨bi, mem_blocks_of_mem_b hmem, hov'⟩
      · rw [if_neg hc]
        constructor
        · intro habs; cases habs
        · rintro ⟨blk, hmem, hint⟩
          exfalso
          apply hc
          rcases List.mem_append.mp hmem with hpm | hbm
          · cases hpb : bus.p with
            | none => rw [hpb] at hpm; simp at hpm
            | some pb =>
              rw [hpb] at hpm
              simp at hpm
              subst hpm
              left
              have hpwf := wf_blk h (mem_blocks_of_p hpb)
              refine ⟨rfl, ?_⟩
              refine (overlapsB_iff_intersects _ _ (by rw [hmod]; exact hcwf) hpwf.1).mpr ⟨?_, ?_⟩
              · show blk.s ≤ (addr + (r.size - 1)) % AddrSize
                rw [hmod]
                exact hint.1
              · exact hint.2
          · right
            show insertIdxGo bus.b
              ⟨addr, (addr + (r.size - 1)) % AddrSize, bus.store.length⟩ 0 bus.b.length < 0
            apply hiff.mpr
            refine ⟨blk, hbm, ?_⟩
            have hbwf := wf_blk h (mem_blocks_of_mem_b hbm)
            rw [overlapsB_iff_intersects _ _ (by rw [hmod]; exact hcwf) hbwf.1, hmod]
            exact hint

/-- Witness for C3 on the four-block bus: the empty-region no-op, a
successful map, a rejected overlap with the preferred block, and a
rejected wrap past the top of the address space. -/
theorem c3_map_witness :
    bus3.wf ∧
    bus3.Map 0x700 .noMem = (none, bus3) ∧
    (bus3.Map 0x305 ram16).1 = some .overlap ∧
    (bus3.Map (AddrSize - 8) ram16).1 = some .overflow ∧
    (bus3.Map 0x305 ram16).2 = bus3 := by
  have hwf : bus3.wf := by decide
  have h1 := (c3_map bus3 hwf 0x700 .noMem (by decide) (by decide)).1 rfl
  have h2 := (c3_map bus3 hwf 0x305 ram16 (by decide) (by decide)).2.2.1 (by decide)
    (by norm_num [ram16, AddrSize, Region.size])
  have h3 := (c3_map bus3 hwf (AddrSize - 8) ram16 (by norm_num [AddrSize])
    (by norm_num [ram16, AddrSize, Region.size])).2.1 (by norm_num [ram16, Region.size])
  refine ⟨hwf, h1, ?_, ?_, ?_⟩
  · rw [h2]
    exact ⟨⟨0x300, 0x30F, 1⟩, by decide, by norm_num [ram16, Region.size]⟩
  · rw [h3]
    norm_num [ram16, Region.size, AddrSize]
  · exact Map_snd_error bus3 0x305 ram16 .overlap (by
      rw [h2]
      exact ⟨⟨0x300, 0x30F, 1⟩, by decide, by norm_num [ram16, Region.size]⟩)

/-! Helper lemmas for the streaming-writer proof. -/

theorem findGoF_result_mem (fuel : Nat) (l : List Block) (a : Nat) (b : Block)
    (hf : findGoF fuel l a = some b) : b ∈ l := by
  induction fuel generalizing l with
  | zero => cases hf
  | succ fuel ih =>
    rw [findGoF] at hf
    by_cases hlen : l.length = 0
    · rw [if_pos hlen] at hf; cases hf
    · rw [if_neg hlen] at hf
      have hi : l.length / 2 < l.length := by omega
      by_cases h1 : a < (l.getD (l.length / 2) default).s
      · rw [if_pos h1] at hf
        exact List.mem_of_mem_take (ih _ hf)
      · rw [if_neg h1] at hf
        by_cases h2 : (l.getD (l.length / 2) default).e < a
        · rw [if_pos h2] at hf
          exact List.mem_of_mem_drop (ih _ hf)
        · rw [if_neg h2] at hf
          cases hf
          rw [List.getD_eq_getElem l default hi]
          exact List.getElem_mem hi

theorem findGoF_result_contains (fuel : Nat) (l : List Block) (a : Nat) (b : Block)
    (hf : findGoF fuel l a = some b) : b.containsB a := by
  induction fuel generalizing l with
  | zero => cases hf
  | succ fuel ih =>
    rw [findGoF] at hf
    by_cases hlen : l.length = 0
    · rw [if_pos hlen] at hf; cases hf
    · rw [if_neg hlen] at hf
      by_cases h1 : a < (l.getD (l.length / 2) default).s
      · rw [if_pos h1] at hf
        exact ih _ hf
      · rw [if_neg h1] at hf
        by_cases h2 : (l.getD (l.length / 2) default).e < a
        · rw [if_pos h2] at hf
          exact ih _ hf
        · rw [if_neg h2] at hf
          cases hf
          exact ⟨by omega, by omega⟩

/-- Two routed blocks with the same region id are the same block. -/
theorem pairwise_m_uniq (l : List Block)
    (hp : l.Pairwise (fun a b => a.m ≠ b.m)) (x y : Block)
    (hx : x ∈ l) (hy : y ∈ l) (hm : x.m = y.m) : x = y := by
  induction l with
  | nil => cases hx
  | cons hd tl ih =>
    rw [List.pairwise_cons] at hp
    obtain ⟨hhd, htl⟩ := hp
    rcases List.mem_cons.mp hx with hx1 | hx1 <;> rcases List.mem_cons.mp hy with hy1 | hy1
    · rw [hx1, hy1]
    · exact absurd (hx1 ▸ hm) (hhd y hy1)
    · exact absurd (hy1 ▸ hm.symm) (hhd x hx1)
    · exact ih htl hx1 hy1

theorem getD_set_ne_at {α : Type} (l : List α) (i j : Nat) (r dflt : α) (hne : i ≠ j) :
    (l.set i r).getD j dflt = l.getD j dflt := by
  by_cases hj : j < l.length
  · rw [List.getD_eq_getElem _ _ (by simpa using hj), List.getD_eq_getElem _ _ hj]
    exact List.getElem_set_ne hne _
  · rw [List.getD_eq_default _ _ (by simpa using by omega : (l.set i r).length ≤ j),
      List.getD_eq_default _ _ (by omega)]

theorem getD_set_self_at {α : Type} (l : List α) (i : Nat) (r dflt : α) (hi : i < l.length) :
    (l.set i r).getD i dflt = r := by
  rw [List.getD_eq_getElem _ _ (by simpa using hi)]
  exact List.getElem_set_self _

/-- Block-relative offset without wrap for a contained address. -/
theorem offIn_of_contains (a s : Nat) (hs : s ≤ a) (ha : a < AddrSize) :
    offIn a s = a - s := by
  have hA := AddrSize_pos
  unfold offIn
  rw [show a + AddrSize - s = AddrSize + (a - s) by omega, Nat.add_mod_left]
  exact Nat.mod_eq_of_lt (by omega)

theorem ramWrite8_ok (d : List Nat) (off c : Nat) (hlt : off < d.length) :
    ramWrite8 d off c = .ok (none, d.set off c) := by
  unfold ramWrite8
  rw [if_neg (by omega), if_neg (by omega)]

theorem ramRead8_ok (d : List Nat) (off : Nat) (hlt : off < d.length) :
    ramRead8 d off = .ok (d.getD off 0, none) := by
  unfold ramRead8
  rw [if_neg (by omega), if_neg (by omega)]

theorem ramRead8_set_ne (d : List Nat) (off o2 c : Nat) (hne : o2 ≠ off) :
    ramRead8 (d.set off c) o2 = ramRead8 d o2 := by
  unfold ramRead8
  rw [List.length_set]
  by_cases h1 : d.length < o2
  · rw [if_pos h1, if_pos h1]
  · rw [if_neg h1, if_neg h1]
    by_cases h2 : d.length - o2 < 1
    · rw [if_pos h2, if_pos h2]
    · rw [if_neg h2, if_neg h2]
      rw [List.getD_eq_getElem _ _ (by simp [List.length_set]; omega),
        List.getD_eq_getElem _ _ (by omega),
        List.getElem_set_ne (fun he => hne he.symm)]

/-- A byte write through a routed block succeeds and touches exactly the
one offset. -/
theorem write8_ram (bus : Bus) (h : bus.wf) (blk : Block) (hin : blk ∈ bus.blocks)
    (a c : Nat) (hc : blk.containsB a) (ha : a < AddrSize) :
    ∃ r', (bus.reg blk.m).Write8 (offIn a blk.s) c = .ok (none, r') ∧
      r'.size = (bus.reg blk.m).size ∧ r'.isRAM = true ∧
      r'.Read8 (offIn a blk.s) = .ok (c, none) ∧
      (∀ o2, o2 ≠ offIn a blk.s → r'.Read8 o2 = (bus.reg blk.m).Read8 o2) := by
  obtain ⟨hse, heA, hram, hsz, hm0, hml⟩ := wf_blk h hin
  obtain ⟨hca, hcs⟩ := hc
  have hoff : offIn a blk.s = a - blk.s := offIn_of_contains a blk.s hcs ha
  cases hreg : bus.reg blk.m with
  | noMem => rw [hreg] at hram; cases hram
  | le d =>
    have hlt : a - blk.s < d.length := by
      have := hsz
      rw [hreg] at this
      simp [Region.size] at this
      omega
    refine ⟨.le (d.set (a - blk.s) c), ?_, ?_, rfl, ?_, ?_⟩
    · rw [hoff]
      simp only [Region.Write8]
      rw [ramWrite8_ok d _ c hlt]
    · simp [Region.size, List.length_set]
    · rw [hoff]
      simp only [Region.Read8]
      rw [ramRead8_ok _ _ (by rw [List.length_set]; omega),
        getD_set_self_at d _ c 0 hlt]
    · intro o2 hne
      rw [hoff] at hne
      simp only [Region.Read8]
      exact ramRead8_set_ne d _ o2 c hne
  | be d =>
    have hlt : a - blk.s < d.length := by
      have := hsz
      rw [hreg] at this
      simp [Region.size] at this
      omega
    refine ⟨.be (d.set (a - blk.s) c), ?_, ?_, rfl, ?_, ?_⟩
    · rw [hoff]
      simp only [Region.Write8]
      rw [ramWrite8_ok d _ c hlt]
    · simp [Region.size, List.length_set]
    · rw [hoff]
      simp only [Region.Read8]
      rw [ramRead8_ok _ _ (by rw [List.length_set]; omega),
        getD_set_self_at d _ c 0 hlt]
    · intro o2 hne
      rw [hoff] at hne
      simp only [Region.Read8]
      exact ramRead8_set_ne d _ o2 c hne

theorem reg_setStore_self (bus : Bus) (i : Nat) (r' : Region) (hi : i < bus.store.length) :
    ({ bus with store := bus.store.set i r' } : Bus).reg i = r' :=
  getD_set_self_at _ _ _ _ hi

theorem reg_setStore_ne (bus : Bus) (i j : Nat) (r' : Region) (hne : i ≠ j) :
    ({ bus with store := bus.store.set i r' } : Bus).reg j = bus.reg j :=
  getD_set_ne_at _ _ _ _ _ hne

/-- Replacing the region behind a routed block's id (same size, still
RAM) preserves the bus invariant. -/
theorem wf_setStore (bus : Bus) (h : bus.wf) (blk : Block) (hin : blk ∈ bus.blocks)
    (r' : Region) (hsz : r'.size = (bus.reg blk.m).size) (hram : r'.isRAM = true) :
    ({ bus with store := bus.store.set blk.m r' } : Bus).wf := by
  obtain ⟨hp, hb, hdis, hmdis, h0⟩ := h
  have hwb := hb blk hin
  obtain ⟨w1, w2, w3, w4, w5, w6⟩ := hwb
  refine ⟨hp, ?_, hdis, hmdis, ?_⟩
  · intro b2 hb2
    have hw2 := hb b2 hb2
    obtain ⟨u1, u2, u3, u4, u5, u6⟩ := hw2
    by_cases hmm : b2.m = blk.m
    · have hbe : b2 = blk := pairwise_m_uniq _ hmdis b2 blk hb2 hin hmm
      subst hbe
      refine ⟨u1, u2, ?_, ?_, u5, ?_⟩
      · rw [show ({ bus with store := bus.store.set b2.m r' } : Bus).reg b2.m = r' from
          reg_setStore_self bus b2.m r' w6]
        exact hram
      · rw [show ({ bus with store := bus.store.set b2.m r' } : Bus).reg b2.m = r' from
          reg_setStore_self bus b2.m r' w6]
        rw [hsz]
        exact u4
      · show b2.m < (bus.store.set b2.m r').length
        rw [List.length_set]
        exact u6
    · refine ⟨u1, u2, ?_, ?_, u5, ?_⟩
      · rw [reg_setStore_ne bus blk.m b2.m r' (fun he => hmm he.symm)]
        exact u3
      · rw [reg_setStore_ne bus blk.m b2.m r' (fun he => hmm he.symm)]
        exact u4
      · show b2.m < (bus.store.set blk.m r').length
        rw [List.length_set]
        exact u6
  · rw [show ({ bus with store := bus.store.set blk.m r' } : Bus).reg 0 = bus.reg 0 from
      reg_setStore_ne bus blk.m 0 r' w5]
    exact h0

/-- A routed resolution: the block a sized access uses either contains
the address and is one of the routed blocks, or is the sentinel. -/
theorem rwBlock_cases (bus : Bus) (a : Nat) :
    (bus.rwBlock a ∈ bus.blocks ∧ (bus.rwBlock a).containsB a) ∨
      bus.rwBlock a = nilMemory := by
  unfold Bus.rwBlock
  by_cases hcp : containsO bus.p a
  · rw [if_pos hcp]
    cases hpb : bus.p with
    | none => rw [hpb] at hcp; cases hcp
    | some pb =>
      rw [hpb] at hcp
      left
      exact ⟨mem_blocks_of_p hpb, hcp⟩
  · rw [if_neg hcp]
    unfold Bus.findB
    cases hf : findGo bus.b a with
    | none => right; rfl
    | some b2 =>
      left
      refine ⟨mem_blocks_of_mem_b (findGoF_result_mem _ _ _ _ hf), ?_⟩
      exact findGoF_result_contains _ _ _ _ hf

/-- Reading back the written byte through the bus. -/
theorem Read8_setStore_written (bus : Bus) (h : bus.wf) (blk : Block)
    (hin : blk ∈ bus.blocks) (a c : Nat) (hc : blk.containsB a) (r' : Region)
    (hr : r'.Read8 (offIn a blk.s) = .ok (c, none)) :
    ({ bus with store := bus.store.set blk.m r' } : Bus).Read8 a = .ok (c, none) := by
  have hres : ({ bus with store := bus.store.set blk.m r' } : Bus).rwBlock a = blk := by
    show bus.rwBlock a = blk
    rw [rwBlock_eq_memoryB]
    exact memoryB_of_mem bus h blk hin a hc
  unfold Bus.Read8
  rw [hres, reg_setStore_self bus blk.m r' (wf_blk h hin).2.2.2.2.2]
  exact hr

/-- A byte write at `a` leaves the bus read at any other address
unchanged. -/
theorem Read8_setStore_frame (bus : Bus) (h : bus.wf) (blk : Block)
    (hin : blk ∈ bus.blocks) (a : Nat) (hc : blk.containsB a) (ha : a < AddrSize)
    (r' : Region)
    (hfr : ∀ o2, o2 ≠ offIn a blk.s → r'.Read8 o2 = (bus.reg blk.m).Read8 o2)
    (a2 : Nat) (ha2 : a2 < AddrSize) (hne : a2 ≠ a) :
    ({ bus with store := bus.store.set blk.m r' } : Bus).Read8 a2 = bus.Read8 a2 := by
  have hres : ({ bus with store := bus.store.set blk.m r' } : Bus).rwBlock a2 =
      bus.rwBlock a2 := rfl
  unfold Bus.Read8
  rw [hres]
  have hbm0 := (wf_blk h hin).2.2.2.2.1
  by_cases hmm : (bus.rwBlock a2).m = blk.m
  · rcases rwBlock_cases bus a2 with ⟨hmem2, hc2⟩ | hnil
    · have hbe : bus.rwBlock a2 = blk := pairwise_m_uniq _ h.2.2.2.1 _ blk hmem2 hin hmm
      have hs2 : blk.s ≤ a2 := by rw [hbe] at hc2; exact hc2.2
      rw [hbe]
      rw [reg_setStore_self bus blk.m r' (wf_blk h hin).2.2.2.2.2]
      apply hfr
      rw [offIn_of_contains a2 blk.s hs2 ha2, offIn_of_contains a blk.s hc.2 ha]
      have hsa := hc.2
      intro heq
      exact hne (by omega)
    · rw [hnil] at hmm
      exact absurd hmm.symm hbm0
  · rw [reg_setStore_ne bus blk.m (bus.rwBlock a2).m r' (fun he => hmm he.symm)]

/-- Routing state determines resolution and mapped-ness. -/
theorem mapped_congr (bus bus' : Bus) (hb : bus'.b = bus.b) (hp : bus'.p = bus.p)
    (a : Nat) : bus'.mapped a ↔ bus.mapped a := by
  unfold Bus.mapped Bus.blocks
  rw [hb, hp]

/-- The busWriter loop: with every target address mapped it writes byte
after byte — re-resolving across block boundaries — and returns the full
count with no error; when it reaches an unmapped address it stops with
the count written so far and io.EOF.  The cached block always either
contains the current address (and is routed), lies strictly before it
(forcing the re-resolve), or is the sentinel at an unmapped address. -/
theorem writerLoop_spec (p : List Nat) :
    ∀ (bus : Bus) (blk : Block) (addr n : Nat),
    bus.wf → addr < AddrSize → addr + p.length ≤ AddrSize →
    ((blk ∈ bus.blocks ∧ blk.containsB addr) ∨ blk.e < addr ∨
      (blk = nilMemory ∧ ¬ bus.mapped addr)) →
    ((∀ j, j < p.length → bus.mapped (addr + j)) →
      ∃ bus', writerLoop bus blk addr p n = .ok (n + p.length, false, bus') ∧
        bus'.wf ∧ bus'.b = bus.b ∧ bus'.p = bus.p ∧
        (∀ j, j < p.length → bus'.Read8 (addr + j) = .ok (p.getD j 0, none)) ∧
        (∀ a2, a2 < AddrSize → (∀ j, j < p.length → a2 ≠ addr + j) →
          bus'.Read8 a2 = bus.Read8 a2)) ∧
    (∀ k, k < p.length → (∀ j, j < k → bus.mapped (addr + j)) →
      ¬ bus.mapped (addr + k) →
      ∃ bus', writerLoop bus blk addr p n = .ok (n + k, true, bus')) := by
  induction p with
  | nil =>
    intro bus blk addr n hwf ha hnw hinv
    exact ⟨fun _ => ⟨bus, rfl, hwf, rfl, rfl, fun j hj => absurd hj (by simp),
      fun a2 _ _ => rfl⟩, fun k hk => absurd hk (by simp)⟩
  | cons c rest ih =>
    intro bus blk addr n hwf ha hnw hinv
    have hQ : (writerBlk bus blk addr ∈ bus.blocks ∧
        (writerBlk bus blk addr).containsB addr) ∨
        (writerBlk bus blk addr = nilMemory ∧ ¬ bus.mapped addr) := by
      unfold writerBlk
      by_cases hre : blk.e < addr
      · rw [if_pos hre]
        by_cases hm : bus.mapped addr
        · obtain ⟨b0, hb0, hc0⟩ := hm
          rw [memoryB_of_mem bus hwf b0 hb0 addr hc0]
          exact .inl ⟨hb0, hc0⟩
        · rw [memoryB_unmapped bus hwf addr hm]
          exact .inr ⟨rfl, hm⟩
      · rw [if_neg hre]
        rcases hinv with ⟨hmem, hc⟩ | hlt | ⟨hnil, hm⟩
        · exact .inl ⟨hmem, hc⟩
        · exact absurd hlt hre
        · exact .inr ⟨hnil, hm⟩
    set blkR := writerBlk bus blk addr with hblkR
    constructor
    · -- every address mapped: the whole buffer is written
      intro hmapped
      have hm0 : bus.mapped addr := by
        have := hmapped 0 (by simp)
        simpa using this
      rcases hQ with ⟨hmem, hc⟩ | ⟨_, hnm2⟩
      · obtain ⟨r', hw8, hsz, hram, hrd, hfr⟩ := write8_ram bus hwf blkR hmem addr c hc ha
        have hwfW : ({ bus with store := bus.store.set blkR.m r' } : Bus).wf :=
          wf_setStore bus hwf blkR hmem r' hsz hram
        by_cases hrest : rest = []
        · subst hrest
          refine ⟨{ bus with store := bus.store.set blkR.m r' }, ?_, hwfW, rfl, rfl, ?_, ?_⟩
          · show writerLoop bus blk addr [c] n = _
            simp only [writerLoop]
            rw [hw8]
            simp [List.length_cons]
          · intro j hj
            have hj0 : j = 0 := by simpa using hj
            subst hj0
            simpa using Read8_setStore_written bus hwf blkR hmem addr c hc r' hrd
          · intro a2 ha2 hout
            have hne0 : a2 ≠ addr := by simpa using hout 0 (by simp)
            exact Read8_setStore_frame bus hwf blkR hmem addr hc ha r' hfr a2 ha2 hne0
        · have hlen : 0 < rest.length := List.length_pos.mpr hrest
          have ha1 : addr + 1 < AddrSize := by
            simp only [List.length_cons] at hnw
            omega
          have hmodeq : (addr + 1) % AddrSize = addr + 1 := Nat.mod_eq_of_lt ha1
          have hinv' : (blkR ∈ ({ bus with store := bus.store.set blkR.m r' } : Bus).blocks ∧
              blkR.containsB (addr + 1)) ∨ blkR.e < addr + 1 ∨
              (blkR = nilMemory ∧
                ¬ ({ bus with store := bus.store.set blkR.m r' } : Bus).mapped (addr + 1)) := by
            by_cases hce : addr + 1 ≤ blkR.e
            · exact .inl ⟨hmem, hce, by have := hc.2; omega⟩
            · exact .inr (.inl (by omega))
          have hIH := ih { bus with store := bus.store.set blkR.m r' } blkR (addr + 1) (n + 1)
            hwfW ha1 (by simp only [List.length_cons] at hnw; omega) hinv'
          have hmapped' : ∀ j, j < rest.length →
              ({ bus with store := bus.store.set blkR.m r' } : Bus).mapped (addr + 1 + j) := by
            intro j hj
            have := hmapped (j + 1) (by simp only [List.length_cons]; omega)
            rw [show addr + (j + 1) = addr + 1 + j by omega] at this
            exact this
          obtain ⟨bus', hrun, hwf', hb', hp', hrd', hfr'⟩ := hIH.1 hmapped'
          refine ⟨bus', ?_, hwf', hb', hp', ?_, ?_⟩
          · show writerLoop bus blk addr (c :: rest) n = _
            simp only [writerLoop]
            rw [hw8]
            show writerLoop { bus with store := bus.store.set blkR.m r' } blkR
                ((addr + 1) % AddrSize) rest (n + 1) = _
            rw [hmodeq, hrun,
              show (n + 1) + rest.length = n + (c :: rest).length by
                simp only [List.length_cons]; omega]
          · intro j hj
            cases j with
            | zero =>
              have hframe := hfr' addr ha (fun j2 hj2 => by omega)
              rw [show addr + 0 = addr by omega, hframe]
              simpa using Read8_setStore_written bus hwf blkR hmem addr c hc r' hrd
            | succ j' =>
              have := hrd' j' (by simp only [List.length_cons] at hj; omega)
              rw [show addr + (j' + 1) = addr + 1 + j' by omega]
              simpa using this
          · intro a2 ha2 hout
            have h1 := hfr' a2 ha2 (fun j hj => by
              have := hout (j + 1) (by simp only [List.length_cons]; omega)
              omega)
            have hne0 : a2 ≠ addr := by
              have := hout 0 (by simp)
              omega
            rw [h1]
            exact Read8_setStore_frame bus hwf blkR hmem addr hc ha r' hfr a2 ha2 hne0
      · exact absurd hm0 hnm2
    · -- the first unmapped address stops the stream with io.EOF
      intro k hk hpre hnm
      cases k with
      | zero =>
        have hnm0 : ¬ bus.mapped addr := by simpa using hnm
        rcases hQ with ⟨hmem, hc⟩ | ⟨hnil, _⟩
        · exact absurd ⟨blkR, hmem, hc⟩ hnm0
        · have hreg0 : bus.reg blkR.m = .noMem := by
            rw [hnil]
            exact hwf.2.2.2.2
          refine ⟨bus, ?_⟩
          show writerLoop bus blk addr (c :: rest) n = _
          simp only [writerLoop]
          rw [← hblkR, hreg0]
          simp [Region.Write8]
      | succ k' =>
        have hm0 : bus.mapped addr := by
          have := hpre 0 (by omega)
          simpa using this
        rcases hQ with ⟨hmem, hc⟩ | ⟨_, hnm2⟩
        · obtain ⟨r', hw8, hsz, hram, _, _⟩ := write8_ram bus hwf blkR hmem addr c hc ha
          have hwfW : ({ bus with store := bus.store.set blkR.m r' } : Bus).wf :=
            wf_setStore bus hwf blkR hmem r' hsz hram
          have hrlen : k' < rest.length := by simp only [List.length_cons] at hk; omega
          have ha1 : addr + 1 < AddrSize := by
            simp only [List.length_cons] at hnw
            omega
          have hmodeq : (addr + 1) % AddrSize = addr + 1 := Nat.mod_eq_of_lt ha1
          have hinv' : (blkR ∈ ({ bus with store := bus.store.set blkR.m r' } : Bus).blocks ∧
              blkR.containsB (addr + 1)) ∨ blkR.e < addr + 1 ∨
              (blkR = nilMemory ∧
                ¬ ({ bus with store := bus.store.set blkR.m r' } : Bus).mapped (addr + 1)) := by
            by_cases hce : addr + 1 ≤ blkR.e
            · exact .inl ⟨hmem, hce, by have := hc.2; omega⟩
            · exact .inr (.inl (by omega))
          have hIH := ih { bus with store := bus.store.set blkR.m r' } blkR (addr + 1) (n + 1)
            hwfW ha1 (by simp only [List.length_cons] at hnw; omega) hinv'
          have hpre' : ∀ j, j < k' →
              ({ bus with store := bus.store.set blkR.m r' } : Bus).mapped (addr + 1 + j) := by
            intro j hj
            have := hpre (j + 1) (by omega)
            rw [show addr + (j + 1) = addr + 1 + j by omega] at this
            exact this
          have hnm' : ¬ ({ bus with store := bus.store.set blkR.m r' } : Bus).mapped
              (addr + 1 + k') := by
            rw [show addr + 1 + k' = addr + (k' + 1) by omega]
            exact hnm
          obtain ⟨bus', hrun⟩ := hIH.2 k' hrlen hpre' hnm'
          refine ⟨bus', ?_⟩
          show writerLoop bus blk addr (c :: rest) n = _
          simp only [writerLoop]
          rw [hw8]
          show writerLoop { bus with store := bus.store.set blkR.m r' } blkR
              ((addr + 1) % AddrSize) rest (n + 1) = _
          rw [hmodeq, hrun, show (n + 1) + k' = n + (k' + 1) by omega]
        · exact absurd hm0 hnm2

/-- C8: the streaming writer writes one byte per advance.  While every
target address is mapped it keeps writing — re-resolving the cached block
whenever the address passes its end, so immediately contiguous blocks are
crossed seamlessly — and returns the full byte count with no end-of-stream
error; the written bytes read back through the bus and every other address
is untouched.  As soon as the advancing address reaches an unmapped
address, Write stops and returns the number of bytes successfully written
together with end-of-stream (io.EOF). -/
theorem c8_writer (bus : Bus) (addr : Nat) (p : List Nat)
    (hwf : bus.wf) (ha : addr < AddrSize) (hnw : addr + p.length ≤ AddrSize) :
    ((∀ j, j < p.length → bus.mapped (addr + j)) →
      ∃ bus', bus.writerWrite addr p = .ok (p.length, false, bus') ∧
        bus'.wf ∧ bus'.b = bus.b ∧ bus'.p = bus.p ∧
        (∀ j, j < p.length → bus'.Read8 (addr + j) = .ok (p.getD j 0, none)) ∧
        (∀ a2, a2 < AddrSize → (∀ j, j < p.length → a2 ≠ addr + j) →
          bus'.Read8 a2 = bus.Read8 a2)) ∧
    (∀ k, k < p.length → (∀ j, j < k → bus.mapped (addr + j)) →
      ¬ bus.mapped (addr + k) →
      ∃ bus', bus.writerWrite addr p = .ok (k, true, bus')) := by
  have hinv : (bus.memoryB addr ∈ bus.blocks ∧ (bus.memoryB addr).containsB addr) ∨
      (bus.memoryB addr).e < addr ∨
      (bus.memoryB addr = nilMemory ∧ ¬ bus.mapped addr) := by
    by_cases hm : bus.mapped addr
    · obtain ⟨b0, hb0, hc0⟩ := hm
      rw [memoryB_of_mem bus hwf b0 hb0 addr hc0]
      exact .inl ⟨hb0, hc0⟩
    · rw [memoryB_unmapped bus hwf addr hm]
      exact .inr (.inr ⟨rfl, hm⟩)
  have h := writerLoop_spec p bus (bus.memoryB addr) addr 0 hwf ha hnw hinv
  refine ⟨fun hm => ?_, fun k hk hpre hnm => ?_⟩
  · obtain ⟨bus', hrun, hrest⟩ := h.1 hm
    refine ⟨bus', ?_, hrest⟩
    show writerLoop bus (bus.memoryB addr) addr p 0 = _
    rw [hrun, Nat.zero_add]
  · obtain ⟨bus', hrun⟩ := h.2 k hk hpre hnm
    refine ⟨bus', ?_⟩
    show writerLoop bus (bus.memoryB addr) addr p 0 = _
    rw [hrun, Nat.zero_add]

/-- Concrete run of the C8 theorem on the two-contiguous-block bus: a
4-byte stream starting at 0x10E crosses from the block at 0x100 into the
block at 0x110, writes all 4 bytes with no error, and the bytes read back;
a stream starting at 0x11E writes 2 bytes and stops with end-of-stream at
the unmapped address 0x120. -/
theorem c8_writer_witness :
    (∃ bus', bus2c.writerWrite 0x10E [1, 2, 3, 4] = .ok (4, false, bus') ∧
      bus'.Read8 0x10E = .ok (1, none) ∧ bus'.Read8 0x10F = .ok (2, none) ∧
      bus'.Read8 0x110 = .ok (3, none) ∧ bus'.Read8 0x111 = .ok (4, none)) ∧
    (∃ bus', bus2c.writerWrite 0x11E [1, 2, 3, 4] = .ok (2, true, bus')) := by
  constructor
  · obtain ⟨bus', hrun, _, _, _, hrd, _⟩ :=
      (c8_writer bus2c 0x10E [1, 2, 3, 4] (by decide) (by decide) (by decide)).1
        (by decide)
    refine ⟨bus', hrun, ?_, ?_, ?_, ?_⟩
    · have := hrd 0 (by decide)
      simpa using this
    · have := hrd 1 (by decide)
      simpa using this
    · have := hrd 2 (by decide)
      simpa using this
    · have := hrd 3 (by decide)
      simpa using this
  · exact (c8_writer bus2c 0x11E [1, 2, 3, 4] (by decide) (by decide) (by decide)).2
      2 (by decide) (by decide) (by decide)

end Mirv
